import Mathlib

/-!
Shallow embedding of the md-to-epub conversion pipeline
(markdown-parser.ts, converter.ts, and the epub generator module)
together with proofs about its packaging, manifest, title, footnote,
asset and cleanup behaviour.

Conventions used throughout:
* TypeScript strings are Lean `String`s; machine I/O (filesystem writes,
  HTTP responses, archive entries) is modelled by explicit data
  (lists of path/content pairs, response lists, entry lists).
* `a || b` on JavaScript strings treats only the empty string as falsy;
  this is captured by `jsOr`.
* Nondeterministic inputs of the code (`new Date()`, `uuidv4()`) are
  threaded as explicit parameters (`today`, `freshUuid`, a uuid counter).
* POSIX path separators are assumed, matching the package-relative
  paths the generator produces.
-/

deriving instance DecidableEq for Except

namespace MdToEpub

/-- Decimal rendering of a natural number, modelling JavaScript's
number-to-string conversion used in template literals such as
`image-${idx}` and `chapter-${i + 1}`.  Fuel-based so that it reduces
definitionally; the fuel `n + 1` always suffices. -/
def natDecCore : Nat → Nat → List Char → List Char
  | 0, _, acc => acc
  | fuel + 1, n, acc =>
    if n < 10 then Char.ofNat (48 + n) :: acc
    else natDecCore fuel (n / 10) (Char.ofNat (48 + n % 10) :: acc)

def natDec (n : Nat) : String := ⟨natDecCore (n + 1) n []⟩

/-- Decimal value of a digit list; inverse used to prove `natDec` injective. -/
def decVal (l : List Char) : Nat := l.foldl (fun a c => a * 10 + (c.toNat - 48)) 0

theorem decVal_append (l₁ l₂ : List Char) :
    decVal (l₁ ++ l₂) = l₂.foldl (fun a c => a * 10 + (c.toNat - 48)) (decVal l₁) := by
  simp [decVal, List.foldl_append]

theorem toNat_digitChar (d : Nat) (h : d < 10) : (Char.ofNat (48 + d)).toNat = 48 + d := by
  interval_cases d <;> decide

theorem natDecCore_acc (fuel n : Nat) (acc : List Char) :
    natDecCore fuel n acc = natDecCore fuel n [] ++ acc := by
  induction fuel generalizing n acc with
  | zero => simp [natDecCore]
  | succ f ih =>
    simp only [natDecCore]
    by_cases h : n < 10
    · simp [h]
    · simp only [h, if_false]
      rw [ih (n / 10), ih (n / 10) (Char.ofNat (48 + n % 10) :: [])]
      simp

theorem decVal_natDecCore (fuel n : Nat) (hf : n < fuel) :
    decVal (natDecCore fuel n []) = n := by
  induction fuel using Nat.strong_induction_on generalizing n with
  | _ fuel ih =>
    match fuel, hf with
    | f + 1, hf =>
      simp only [natDecCore]
      by_cases h : n < 10
      · simp [h, decVal, toNat_digitChar n h]
      · simp only [h, if_false]
        rw [natDecCore_acc]
        rw [decVal_append]
        have h10 : n / 10 < f := by
          have h1 : n / 10 < n := Nat.div_lt_self (by omega) (by omega)
          omega
        have hfpos : f < f + 1 := Nat.lt_succ_self f
        rw [ih f hfpos (n / 10) h10]
        simp [toNat_digitChar (n % 10) (Nat.mod_lt n (by omega))]
        omega

theorem decVal_natDec (n : Nat) : decVal (natDec n).data = n :=
  decVal_natDecCore (n + 1) n (Nat.lt_succ_self n)

theorem natDec_injective : Function.Injective natDec := by
  intro a b h
  have : decVal (natDec a).data = decVal (natDec b).data := by rw [h]
  rwa [decVal_natDec, decVal_natDec] at this

/-- Concatenation of strings acts as concatenation on their character data. -/
theorem string_append_data (a b : String) : (a ++ b).data = a.data ++ b.data := by
  cases a; cases b; rfl

/-- Left cancellation for string concatenation. -/
theorem string_append_left_cancel {a x y : String} (h : a ++ x = a ++ y) : x = y := by
  cases a with
  | mk ad =>
    cases x with
    | mk xd =>
      cases y with
      | mk yd =>
        have hd : ad ++ xd = ad ++ yd := congrArg String.data h
        have hxy := List.append_cancel_left hd
        exact congrArg String.mk hxy

theorem string_append_left_cancel_iff (a x y : String) : (a ++ x = a ++ y) ↔ x = y :=
  ⟨string_append_left_cancel, fun h => by rw [h]⟩

/-- Model of JavaScript `x || y` for `x : string | undefined`:
`undefined` and the empty string are falsy. -/
def jsOr : Option String → String → String
  | some s, b => if s = "" then b else s
  | none, b => b

/-- Split a character list on a separator character (structural version of
string splitting, so that it evaluates inside the kernel). -/
def splitOnChar (sep : Char) : List Char → List (List Char)
  | [] => [[]]
  | c :: rest =>
    match splitOnChar sep rest with
    | [] => [[c]]
    | h :: t => if c = sep then [] :: h :: t else (c :: h) :: t

/-- `s` starts with `pre` (structural version of String.startsWith). -/
def strStartsWith (s pre : String) : Bool := pre.data.isPrefixOf s.data

/-- `s` ends with `suf`. -/
def strEndsWith (s suf : String) : Bool := suf.data.isSuffixOf s.data

/-- Model of Node's `path.basename` for POSIX paths without trailing
separators: the component after the last slash. -/
def baseName (p : String) : String := ⟨(splitOnChar '/' p.data).getLastD p.data⟩

/-- Model of Node's `path.extname`: the suffix of the basename starting at
its last dot, empty for dotless names and for names whose only dot leads. -/
def extName (p : String) : String :=
  let b := baseName p
  let parts := splitOnChar '.' b.data
  if parts.length ≤ 1 then ""
  else if parts.head? = some [] ∧ parts.length = 2 then ""
  else "." ++ String.mk (parts.getLastD [])

/-- Model of Node's `path.basename(p, ext)`: strips `ext` when it is a
proper suffix of the basename. -/
def baseNameNoExt (p : String) : String :=
  let b := baseName p
  let e := extName p
  if e.length < b.length ∧ strEndsWith b e then ⟨b.data.take (b.data.length - e.data.length)⟩
  else b

/-- escapeXml from the epub generator module: entity-escapes
the five XML special characters, all other characters pass through. -/
def escapeXmlChar (c : Char) : String :=
  if c = '&' then "&amp;"
  else if c = '<' then "&lt;"
  else if c = '>' then "&gt;"
  else if c = '"' then "&quot;"
  else if c = '\'' then "&apos;"
  else String.singleton c

def escapeXml (s : String) : String := String.join (s.data.map escapeXmlChar)

/-- escapeHtml from markdown-parser.ts (same character class, apostrophe
maps to a numeric entity). -/
def escapeHtmlChar (c : Char) : String :=
  if c = '&' then "&amp;"
  else if c = '<' then "&lt;"
  else if c = '>' then "&gt;"
  else if c = '"' then "&quot;"
  else if c = '\'' then "&#039;"
  else String.singleton c

def escapeHtml (s : String) : String := String.join (s.data.map escapeHtmlChar)

/-- Modelled from the mime-types database for the image extensions this
tool exercises; `mime.lookup(href) || 'image/jpeg'` falls back to
`image/jpeg` for unrecognized extensions. -/
def mimeLookup (href : String) : String :=
  let e := extName href
  if e = ".png" then "image/png"
  else if e = ".jpg" then "image/jpeg"
  else if e = ".jpeg" then "image/jpeg"
  else if e = ".gif" then "image/gif"
  else if e = ".svg" then "image/svg+xml"
  else if e = ".webp" then "image/webp"
  else "image/jpeg"

/-- Number of (possibly overlapping) occurrences of the pattern `p`
as a contiguous substring of `s`; meaningful for nonempty `p`. -/
def countSub (p : List Char) : List Char → Nat
  | [] => 0
  | c :: rest => (if p.isPrefixOf (c :: rest) then 1 else 0) + countSub p rest

/-! ## Data model (types.ts) -/

structure ImageReference where
  src : String
  resolvedPath : String
  mediaType : String
  id : String
deriving DecidableEq, Repr

structure EpubMetadata where
  title : String
  author : String
  language : String
  publisher : Option String
  description : Option String
  rights : Option String
  identifier : String
  cover : Option String
  createdDate : String
deriving DecidableEq, Repr

structure Chapter where
  title : String
  html : String
  id : String
  order : Nat
deriving DecidableEq, Repr

structure Config where
  author : Option String := none
  language : Option String := none
  publisher : Option String := none
  cover : Option String := none
  outputDir : Option String := none
  title : Option String := none
  description : Option String := none
  rights : Option String := none
  identifier : Option String := none
deriving DecidableEq, Repr

/-- The data the converter obtains from `parseMarkdown` for one input file,
together with the file's basename (without extension), which the converter
derives from the input path. -/
structure ParsedInput where
  basename : String
  html : String
  images : List ImageReference
  title : Option String
deriving DecidableEq, Repr

/-! ## Package document (content.opf) and navigation (toc.ncx) generation -/

/-- One `<item .../>` entry of the OPF manifest. -/
structure OpfItem where
  id : String
  href : String
  mediaType : String
deriving DecidableEq, Repr

/-- Renders one manifest item exactly as the template literals in
`getContentOpf`/`getMultiChapterContentOpf` do. -/
def renderOpfItem (it : OpfItem) : String :=
  "    <item id=\"" ++ it.id ++ "\" href=\"" ++ it.href ++ "\" media-type=\"" ++
    it.mediaType ++ "\"/>"

def ncxItem : OpfItem := ⟨"ncx", "toc.ncx", "application/x-dtbncx+xml"⟩
def styleItem : OpfItem := ⟨"style", "css/style.css", "text/css"⟩
def contentItem : OpfItem := ⟨"content", "content.xhtml", "application/xhtml+xml"⟩

/-- `images.map((img, idx) => ...)`: one manifest item per image reference,
with id `image-<idx>` and href `images/<basename of the written source>`. -/
def imageItemsFrom (idx : Nat) : List ImageReference → List OpfItem
  | [] => []
  | img :: rest =>
    ⟨"image-" ++ natDec idx, "images/" ++ baseName img.src, img.mediaType⟩ ::
      imageItemsFrom (idx + 1) rest

/-- The cover manifest item, present when `metadata.cover` is truthy. -/
def coverItemList (m : EpubMetadata) : List OpfItem :=
  match m.cover with
  | some c => if c = "" then [] else [⟨"cover-image", "images/cover" ++ extName c, "image/jpeg"⟩]
  | none => []

def chapterOpfItem (ch : Chapter) : OpfItem := ⟨ch.id, ch.id ++ ".xhtml", "application/xhtml+xml"⟩

/-- Structured view of the single-document manifest: the fixed ncx, style
and content items, the optional cover item, and one item per image. -/
def singleOpfItems (m : EpubMetadata) (images : List ImageReference) : List OpfItem :=
  ncxItem :: styleItem :: contentItem :: (coverItemList m ++ imageItemsFrom 0 images)

/-- Structured view of the multi-chapter manifest. -/
def multiOpfItems (m : EpubMetadata) (images : List ImageReference)
    (chapters : List Chapter) : List OpfItem :=
  ncxItem :: styleItem :: (chapters.map chapterOpfItem ++ coverItemList m ++ imageItemsFrom 0 images)

def imageManifestStr (images : List ImageReference) : String :=
  String.intercalate "\n" ((imageItemsFrom 0 images).map renderOpfItem)

def coverItemStr (m : EpubMetadata) : String :=
  match m.cover with
  | some c => if c = "" then "" else renderOpfItem ⟨"cover-image", "images/cover" ++ extName c, "image/jpeg"⟩ ++ "\n"
  | none => ""

def publisherPiece : Option String → String
  | some p => if p = "" then "" else "<dc:publisher>" ++ escapeXml p ++ "</dc:publisher>"
  | none => ""

def descriptionPiece : Option String → String
  | some d => if d = "" then "" else "<dc:description>" ++ escapeXml d ++ "</dc:description>"
  | none => ""

def rightsPiece : Option String → String
  | some r => if r = "" then "" else "<dc:rights>" ++ escapeXml r ++ "</dc:rights>"
  | none => ""

/-- The metadata block shared by both package documents, as the list of
string pieces the template concatenates.  `metadata.identifier`,
`metadata.language` and `metadata.createdDate` are interpolated verbatim;
title, creator, publisher, description and rights go through `escapeXml`.
`today` models `new Date().toISOString().split('T')[0]`. -/
def opfMetadataPieces (m : EpubMetadata) (today : String) : List String :=
  ["<?xml version=\"1.0\" encoding=\"UTF-8\"?>\n<package xmlns=\"http://www.idpf.org/2007/opf\" version=\"3.0\" xml:lang=\"",
   m.language,
   "\" unique-identifier=\"pub-id\">\n  <metadata xmlns:dc=\"http://purl.org/dc/elements/1.1/\">\n    <dc:identifier id=\"pub-id\">",
   m.identifier,
   "</dc:identifier>\n    <dc:title>",
   escapeXml m.title,
   "</dc:title>\n    <dc:language>",
   m.language,
   "</dc:language>\n    <dc:creator>",
   escapeXml m.author,
   "</dc:creator>\n    ",
   publisherPiece m.publisher,
   "\n    ",
   descriptionPiece m.description,
   "\n    ",
   rightsPiece m.rights,
   "\n    <dc:date>",
   m.createdDate,
   "</dc:date>\n    <meta property=\"dcterms:modified\">",
   today,
   "</meta>\n  </metadata>\n"]

/-- getContentOpf: whole-package document for single-document mode, as the
list of pieces the template concatenates. -/
def opfPieces (m : EpubMetadata) (images : List ImageReference) (today : String) : List String :=
  opfMetadataPieces m today ++
  ["  <manifest>\n",
   renderOpfItem ncxItem, "\n",
   renderOpfItem styleItem, "\n",
   renderOpfItem contentItem, "\n",
   coverItemStr m,
   imageManifestStr images,
   "\n  </manifest>\n  <spine toc=\"ncx\">\n    <itemref idref=\"content\"/>\n  </spine>\n</package>"]

def getContentOpf (m : EpubMetadata) (images : List ImageReference) (today : String) : String :=
  String.join (opfPieces m images today)

/-- getMultiChapterContentOpf pieces: chapter items precede the cover and
image items; the spine lists the chapters in order. -/
def opfMultiPieces (m : EpubMetadata) (images : List ImageReference)
    (chapters : List Chapter) (today : String) : List String :=
  opfMetadataPieces m today ++
  ["  <manifest>\n",
   renderOpfItem ncxItem, "\n",
   renderOpfItem styleItem, "\n",
   String.intercalate "\n" (chapters.map (fun ch => renderOpfItem (chapterOpfItem ch))), "\n",
   coverItemStr m,
   imageManifestStr images,
   "\n  </manifest>\n  <spine toc=\"ncx\">\n",
   String.intercalate "\n" (chapters.map (fun ch => "    <itemref idref=\"" ++ ch.id ++ "\"/>")),
   "\n  </spine>\n</package>"]

def getMultiChapterContentOpf (m : EpubMetadata) (images : List ImageReference)
    (chapters : List Chapter) (today : String) : String :=
  String.join (opfMultiPieces m images chapters today)

/-- The idrefs the single-document spine references. -/
def singleSpineIdrefs : List String := ["content"]

/-- The idrefs the multi-chapter spine references. -/
def multiSpineIdrefs (chapters : List Chapter) : List String := chapters.map (·.id)

/-- The content-document targets the single-document toc.ncx references. -/
def singleNcxSrcs : List String := ["content.xhtml"]

/-- The content-document targets the multi-chapter toc.ncx references. -/
def multiNcxSrcs (chapters : List Chapter) : List String :=
  chapters.map (fun ch => ch.id ++ ".xhtml")

/-- getTocNcx: single-document navigation file, as template pieces.
`metadata.identifier` is interpolated verbatim into the `dtb:uid` meta;
the doc title and the single nav label go through `escapeXml`. -/
def ncxPieces (m : EpubMetadata) : List String :=
  ["<?xml version=\"1.0\" encoding=\"UTF-8\"?>\n<ncx xmlns=\"http://www.daisy.org/z3986/2005/ncx/\" version=\"2005-1\">\n  <head>\n    <meta name=\"dtb:uid\" content=\"",
   m.identifier,
   "\"/>\n    <meta name=\"dtb:depth\" content=\"1\"/>\n    <meta name=\"dtb:totalPageCount\" content=\"0\"/>\n    <meta name=\"dtb:maxPageNumber\" content=\"0\"/>\n  </head>\n  <docTitle>\n    <text>",
   escapeXml m.title,
   "</text>\n  </docTitle>\n  <navMap>\n    <navPoint id=\"navpoint-1\" playOrder=\"1\">\n      <navLabel>\n        <text>",
   escapeXml m.title,
   "</text>\n      </navLabel>\n      <content src=\"content.xhtml\"/>\n    </navPoint>\n  </navMap>\n</ncx>"]

def getTocNcx (m : EpubMetadata) : String := String.join (ncxPieces m)

/-- One multi-chapter navPoint, exactly as the template renders it
(`idx` is the zero-based position in the chapters list). -/
def renderNavPoint (idx : Nat) (ch : Chapter) : String :=
  "    <navPoint id=\"navpoint-" ++ natDec (idx + 1) ++ "\" playOrder=\"" ++ natDec (idx + 1) ++
  "\">\n      <navLabel>\n        <text>" ++ escapeXml ch.title ++
  "</text>\n      </navLabel>\n      <content src=\"" ++ ch.id ++ ".xhtml\"/>\n    </navPoint>"

def navPointsFrom (idx : Nat) : List Chapter → List String
  | [] => []
  | ch :: rest => renderNavPoint idx ch :: navPointsFrom (idx + 1) rest

/-- getMultiChapterTocNcx as template pieces. -/
def ncxMultiPieces (m : EpubMetadata) (chapters : List Chapter) : List String :=
  ["<?xml version=\"1.0\" encoding=\"UTF-8\"?>\n<ncx xmlns=\"http://www.daisy.org/z3986/2005/ncx/\" version=\"2005-1\">\n  <head>\n    <meta name=\"dtb:uid\" content=\"",
   m.identifier,
   "\"/>\n    <meta name=\"dtb:depth\" content=\"1\"/>\n    <meta name=\"dtb:totalPageCount\" content=\"0\"/>\n    <meta name=\"dtb:maxPageNumber\" content=\"0\"/>\n  </head>\n  <docTitle>\n    <text>",
   escapeXml m.title,
   "</text>\n  </docTitle>\n  <navMap>\n",
   String.intercalate "\n" (navPointsFrom 0 chapters),
   "\n  </navMap>\n</ncx>"]

def getMultiChapterTocNcx (m : EpubMetadata) (chapters : List Chapter) : String :=
  String.join (ncxMultiPieces m chapters)

/-- getContainerXml: fixed content naming the package document. -/
def getContainerXml : String :=
  "<?xml version=\"1.0\" encoding=\"UTF-8\"?>\n<container version=\"1.0\" xmlns=\"urn:oasis:names:tc:opendocument:xmlns:container\">\n  <rootfiles>\n    <rootfile full-path=\"OEBPS/content.opf\" media-type=\"application/oebps-package+xml\"/>\n  </rootfiles>\n</container>"

/-- getContentXhtml: the strict-XML shell around one document's HTML. -/
def getContentXhtml (htmlContent title : String) : String :=
  "<?xml version=\"1.0\" encoding=\"UTF-8\"?>\n<!DOCTYPE html>\n<html xmlns=\"http://www.w3.org/1999/xhtml\" xmlns:epub=\"http://www.idpf.org/2007/ops\">\n<head>\n  <title>" ++
  escapeXml title ++
  "</title>\n  <link rel=\"stylesheet\" type=\"text/css\" href=\"css/style.css\"/>\n</head>\n<body>\n" ++
  htmlContent ++
  "\n</body>\n</html>"

/-- getEpubCSS from markdown-parser.ts (braces and apostrophes written via
escape codes; the text is otherwise the stylesheet the source embeds). -/
def getEpubCSS : String :=
  "\nbody \x7b\n  font-family: Georgia, serif;\n  line-height: 1.6;\n  margin: 1em;\n  color: #000;\n\x7d\n\nh1, h2, h3, h4, h5, h6 \x7b\n  font-family: Arial, sans-serif;\n  margin-top: 1em;\n  margin-bottom: 0.5em;\n  page-break-after: avoid;\n\x7d\n\nh1 \x7b\n  font-size: 2em;\n  border-bottom: 1px solid #ccc;\n\x7d\n\nh2 \x7b\n  font-size: 1.5em;\n\x7d\n\np \x7b\n  margin: 0.5em 0;\n  text-align: justify;\n  text-indent: 1em;\n\x7d\n\np:first-of-type,\nh1 + p,\nh2 + p,\nh3 + p,\nh4 + p,\nh5 + p,\nh6 + p \x7b\n  text-indent: 0;\n\x7d\n\nimg \x7b\n  max-width: 100%;\n  height: auto;\n  display: block;\n  margin: 1em auto;\n\x7d\n\ncode \x7b\n  font-family: \x27Courier New\x27, monospace;\n  background-color: #f4f4f4;\n  padding: 0.2em 0.4em;\n  border-radius: 3px;\n\x7d\n\npre \x7b\n  background-color: #f4f4f4;\n  padding: 1em;\n  overflow-x: auto;\n  border-radius: 5px;\n\x7d\n\npre code \x7b\n  background-color: transparent;\n  padding: 0;\n\x7d\n\nblockquote \x7b\n  margin: 1em 2em;\n  padding-left: 1em;\n  border-left: 3px solid #ccc;\n  font-style: italic;\n\x7d\n\nul, ol \x7b\n  margin: 0.5em 0;\n  padding-left: 2em;\n\x7d\n\ntable \x7b\n  border-collapse: collapse;\n  width: 100%;\n  margin: 1em 0;\n\x7d\n\nth, td \x7b\n  border: 1px solid #ddd;\n  padding: 0.5em;\n  text-align: left;\n\x7d\n\nth \x7b\n  background-color: #f4f4f4;\n  font-weight: bold;\n\x7d\n\n.footnote \x7b\n  font-size: 0.9em;\n  margin-top: 2em;\n  padding-top: 0.5em;\n  border-top: 1px solid #ccc;\n\x7d\n\na \x7b\n  color: #0066cc;\n  text-decoration: none;\n\x7d\n\na:hover \x7b\n  text-decoration: underline;\n\x7d\n"

/-! ## Staging-tree construction (createEpubStructure / createMultiChapterEpubStructure)

The staged tree is modelled as a list of (tempDir-relative path, content)
pairs in write order, plus the warnings emitted for assets that could not
be materialized.  `fetchOk` abstracts the outcome of the per-image
`copyFile`/`downloadImage` call and `coverOk` that of the cover copy; a
materialized asset's bytes are modelled by a tag naming their origin. -/

def imageDest (img : ImageReference) : String := "OEBPS/images/" ++ baseName img.src

/-- The per-image loop: each successful asset adds a staged file, each
failure is caught and recorded as a warning; the loop itself never fails. -/
def materializeImages (images : List ImageReference) (fetchOk : ImageReference → Bool) :
    List (String × String) × List String :=
  images.foldl
    (fun acc img =>
      if fetchOk img then (acc.1 ++ [(imageDest img, "asset:" ++ img.resolvedPath)], acc.2)
      else (acc.1, acc.2 ++ ["Warning: Could not process image " ++ img.src]))
    ([], [])

/-- The cover copy, also wrapped in its own try/catch. -/
def materializeCover (m : EpubMetadata) (coverOk : Bool) :
    List (String × String) × List String :=
  match m.cover with
  | some c =>
    if c = "" then ([], [])
    else if coverOk then ([("OEBPS/images/cover" ++ extName c, "asset:" ++ c)], [])
    else ([], ["Warning: Could not copy cover image"])
  | none => ([], [])

/-- createEpubStructure: the staged files in write order (mimetype first,
then container.xml, content.opf, toc.ncx, content.xhtml, the stylesheet,
then the materialized assets) and the asset warnings.  Note that
content.opf is generated from the full image list, before any asset is
materialized. -/
def createEpubStructureFiles (htmlContent : String) (m : EpubMetadata)
    (images : List ImageReference) (fetchOk : ImageReference → Bool) (coverOk : Bool)
    (today : String) : List (String × String) × List String :=
  let imgs := materializeImages images fetchOk
  let cov := materializeCover m coverOk
  ([("mimetype", "application/epub+zip"),
    ("META-INF/container.xml", getContainerXml),
    ("OEBPS/content.opf", getContentOpf m images today),
    ("OEBPS/toc.ncx", getTocNcx m),
    ("OEBPS/content.xhtml", getContentXhtml htmlContent m.title),
    ("OEBPS/css/style.css", getEpubCSS)] ++ imgs.1 ++ cov.1,
   imgs.2 ++ cov.2)

/-- createMultiChapterEpubStructure: as above but with one content
document per chapter and the multi-chapter package/navigation files. -/
def createMultiChapterEpubStructureFiles (chapters : List Chapter) (m : EpubMetadata)
    (images : List ImageReference) (fetchOk : ImageReference → Bool) (coverOk : Bool)
    (today : String) : List (String × String) × List String :=
  let imgs := materializeImages images fetchOk
  let cov := materializeCover m coverOk
  ([("mimetype", "application/epub+zip"),
    ("META-INF/container.xml", getContainerXml),
    ("OEBPS/content.opf", getMultiChapterContentOpf m images chapters today),
    ("OEBPS/toc.ncx", getMultiChapterTocNcx m chapters)] ++
   chapters.map (fun ch => ("OEBPS/" ++ ch.id ++ ".xhtml", getContentXhtml ch.html ch.title)) ++
   [("OEBPS/css/style.css", getEpubCSS)] ++ imgs.1 ++ cov.1,
   imgs.2 ++ cov.2)

/-! ## Archive serialization (createEpubArchive) -/

/-- One zip entry.  `store = true` means the entry is stored uncompressed;
`store = false` means it is deflated.  Modelled from archiver's API: an
`append`/`directory` entry is deflated (here at zlib level 9) unless its
options set `store: true`. -/
structure ArchiveEntry where
  name : String
  data : String
  store : Bool
deriving DecidableEq, Repr

/-- createEpubArchive: appends the staged `mimetype` file first — with
options `{ name: 'mimetype' }`, which do not set `store` — then adds the
META-INF and OEBPS directories, whose entries use the default (deflate)
as well. -/
def createEpubArchive (files : List (String × String)) : List ArchiveEntry :=
  { name := "mimetype", data := (List.lookup "mimetype" files).getD "", store := false } ::
  ((files.filter (fun f => strStartsWith f.1 "META-INF/")).map (fun f => ⟨f.1, f.2, false⟩) ++
   (files.filter (fun f => strStartsWith f.1 "OEBPS/")).map (fun f => ⟨f.1, f.2, false⟩))

/-! ## Image download (downloadImage) -/

/-- One HTTP response as the callback observes it. -/
structure HttpResponse where
  statusCode : Nat
  location : Option String
  body : String
deriving DecidableEq, Repr

/-- A 301/302 response carrying a Location header, which the code follows. -/
def isRedirect (r : HttpResponse) : Bool :=
  (r.statusCode == 301 || r.statusCode == 302) && r.location.isSome

/-- downloadImage over the sequence of responses the network returns for
the successive requests: a 301/302 response with a Location header
recurses on the next response; any other response with status ≠ 200
rejects; a 200 response resolves with its body written to the
destination.  An exhausted list models a network error event. -/
def downloadImage : List HttpResponse → Except String String
  | [] => .error "network error"
  | r :: rest =>
    if isRedirect r then downloadImage rest
    else if r.statusCode ≠ 200 then
      .error ("Failed to download image: " ++ natDec r.statusCode)
    else .ok r.body

/-! ## generateEpub / generateMultiChapterEpub (staging lifecycle)

Trace model of the try/catch around structure creation, archiving and
cleanup.  The staging directory is created by the first `mkdir` inside the
structure step; `fs.promises.rm(tempDir, { recursive: true, force: true })`
is modelled as succeeding.  `structureFault`/`archiveFault` model an I/O
failure thrown by the respective step. -/

inductive FsEvent where
  | createTemp
  | structureStep
  | archiveStep
  | removeTemp
deriving DecidableEq, Repr

/-- Whether the staging directory exists after a trace of events. -/
def tempDirExistsAfter (events : List FsEvent) : Bool :=
  events.foldl
    (fun b e =>
      match e with
      | .createTemp => true
      | .removeTemp => false
      | _ => b)
    false

def generateEpubRun (htmlContent : String) (m : EpubMetadata) (images : List ImageReference)
    (fetchOk : ImageReference → Bool) (coverOk : Bool) (today : String)
    (structureFault archiveFault : Bool) :
    List FsEvent × Except String (List ArchiveEntry) :=
  if structureFault then
    ([.createTemp, .structureStep, .removeTemp], .error "staging I/O failure")
  else
    let staged := createEpubStructureFiles htmlContent m images fetchOk coverOk today
    if archiveFault then
      ([.createTemp, .structureStep, .archiveStep, .removeTemp], .error "archive I/O failure")
    else
      ([.createTemp, .structureStep, .archiveStep, .removeTemp], .ok (createEpubArchive staged.1))

def generateMultiChapterEpubRun (chapters : List Chapter) (m : EpubMetadata)
    (images : List ImageReference) (fetchOk : ImageReference → Bool) (coverOk : Bool)
    (today : String) (structureFault archiveFault : Bool) :
    List FsEvent × Except String (List ArchiveEntry) :=
  if structureFault then
    ([.createTemp, .structureStep, .removeTemp], .error "staging I/O failure")
  else
    let staged := createMultiChapterEpubStructureFiles chapters m images fetchOk coverOk today
    if archiveFault then
      ([.createTemp, .structureStep, .archiveStep, .removeTemp], .error "archive I/O failure")
    else
      ([.createTemp, .structureStep, .archiveStep, .removeTemp], .ok (createEpubArchive staged.1))

/-! ## Footnote extension (configureMarked in markdown-parser.ts)

The footnote block tokenizer matches `[^id]: text` at a block start
(regex `^\[\^([^\]]+)\]:\s*(.+?)(?=\n\n|\n\[\^|$)` with the `s` flag:
lazy text, stopping before a blank line, the next footnote definition, or
the end of input); the inline tokenizer matches `[^id]` not followed by a
colon.  The surrounding conforming markdown transformer is external to
this repository and is modelled as the identity on all other characters;
only the footnote artifacts matter for the properties proved here. -/

def isWsChar (c : Char) : Bool :=
  c = ' ' || c = '\t' || c = '\n' || c = '\r' || c = '\x0b' || c = '\x0c'

def trimStr (s : String) : String :=
  ⟨((s.data.dropWhile isWsChar).reverse.dropWhile isWsChar).reverse⟩

/-- The `(?=\n\n|\n\[\^)` lookahead of the definition tokenizer. -/
def lookaheadStop : List Char → Bool
  | '\n' :: '\n' :: _ => true
  | '\n' :: '[' :: '^' :: _ => true
  | _ => false

/-- Lazy `(.+?)` match up to the lookahead (or input end): the shortest
nonempty prefix whose remainder stops the scan. -/
def defTextSplit : List Char → Option (List Char × List Char)
  | [] => none
  | c :: rest =>
    if lookaheadStop rest then some ([c], rest)
    else
      match defTextSplit rest with
      | some (txt, r) => some (c :: txt, r)
      | none => some ([c], [])

/-- The `[^\]]+` capture: the id characters up to the closing bracket. -/
def idCapture (rest : List Char) : List Char := rest.takeWhile (fun c => c ≠ ']')

/-- Match of the footnote-definition tokenizer at the current position:
returns the id, the trimmed text and the unconsumed input. -/
def matchFootnoteDef (s : List Char) : Option (String × String × List Char) :=
  match s with
  | '[' :: '^' :: rest =>
    if idCapture rest = [] then none
    else
      match rest.drop (idCapture rest).length with
      | ']' :: ':' :: rest2 =>
        match defTextSplit (rest2.drop (rest2.takeWhile isWsChar).length) with
        | some (txt, rest3) => some (⟨idCapture rest⟩, trimStr ⟨txt⟩, rest3)
        | none => none
      | _ => none
  | _ => none

/-- Match of the footnote-reference tokenizer: `[^id]` not followed by a
colon. -/
def matchFootnoteRef (s : List Char) : Option (String × List Char) :=
  match s with
  | '[' :: '^' :: rest =>
    if idCapture rest = [] then none
    else
      match rest.drop (idCapture rest).length with
      | ']' :: rest2 =>
        if rest2.head? = some ':' then none else some (⟨idCapture rest⟩, rest2)
      | _ => none
  | _ => none

inductive FnTok where
  | text : Char → FnTok
  | footnote : String → String → FnTok
  | footnoteRef : String → FnTok
deriving DecidableEq, Repr

/-- Scanner dispatching the two tokenizers: definitions fire at line
starts, references inline; all other characters pass through.  Fuel-based
(each step consumes at least one character, so fuel = input length
suffices). -/
def scanFootnotes : Nat → Bool → List Char → List FnTok
  | 0, _, _ => []
  | _ + 1, _, [] => []
  | fuel + 1, lineStart, c :: rest =>
    match (if lineStart then matchFootnoteDef (c :: rest) else none) with
    | some (id, txt, rest2) => .footnote id txt :: scanFootnotes fuel false rest2
    | none =>
      match matchFootnoteRef (c :: rest) with
      | some (id, rest2) => .footnoteRef id :: scanFootnotes fuel false rest2
      | none => .text c :: scanFootnotes fuel (c = '\n') rest

/-- The renderers the extensions register with marked, verbatim. -/
def renderFnTok : FnTok → String
  | .text c => String.singleton c
  | .footnote id txt =>
      "<div class=\"footnote\" id=\"fn-" ++ id ++ "\">\n        <sup>" ++ id ++
      "</sup> " ++ txt ++ "\n      </div>\n"
  | .footnoteRef id =>
      "<sup><a href=\"#fn-" ++ id ++ "\" id=\"ref-" ++ id ++ "\">" ++ id ++ "</a></sup>"

/-- The content document text produced for an input, as far as the
footnote extension is concerned. -/
def markedWithFootnotes (input : String) : String :=
  String.join ((scanFootnotes input.data.length true input.data).map renderFnTok)

/-! ## Title extraction (extractTitle) -/

/-- One line's match against `^#\s+(.+)$`. -/
def h1Match (line : String) : Option String :=
  match line.data with
  | '#' :: rest =>
    let ws := rest.takeWhile isWsChar
    let body := rest.drop ws.length
    if ws ≠ [] ∧ body ≠ [] then some ⟨body⟩ else none
  | _ => none

/-- extractTitle: the capture of the first line matching `^#\s+(.+)$`
(multiline flag), verbatim. -/
def extractTitle (markdownText : String) : Option String :=
  ((splitOnChar '\n' markdownText.data).map String.mk).findSome? h1Match

/-! ## parseMarkdown module state (markdown-parser.ts lines 8-11, 134-160)

The module-level mutable bindings `parsedImages` and `currentBaseDir` are
modelled with an explicit heap of arrays: `parsedImages = []` allocates a
fresh array and rebinds the module-level reference to it (the array a
previous call returned keeps its own reference), and each intercepted
image pushes onto the array the module-level reference currently points
to.  `uuidCtr` supplies the `uuidv4()` values for the per-image ids. -/

structure PMState where
  nextRef : Nat
  heap : List (Nat × List ImageReference)
  parsedImagesRef : Nat
  currentBaseDir : String
  uuidCtr : Nat
deriving Repr

def heapGet (h : List (Nat × List ImageReference)) (r : Nat) : List ImageReference :=
  (List.lookup r h).getD []

def heapSet (h : List (Nat × List ImageReference)) (r : Nat) (v : List ImageReference) :
    List (Nat × List ImageReference) := (r, v) :: h

/-- Model of `path.resolve(currentBaseDir, href)` for the relative
references this tool handles. -/
def pathResolve (baseDir href : String) : String := baseDir ++ "/" ++ href

def resolveHref (baseDir href : String) : String :=
  if strStartsWith href "http://" || strStartsWith href "https://" then href
  else pathResolve baseDir href

/-- customImageRenderer's side effect: resolve the written path, assign a
fresh id, and push the reference onto the module-level image array. -/
def customImageRendererStep (st : PMState) (href : String) : PMState :=
  let img : ImageReference :=
    { src := href
      resolvedPath := resolveHref st.currentBaseDir href
      mediaType := mimeLookup href
      id := "img-" ++ natDec st.uuidCtr }
  { st with
      heap := heapSet st.heap st.parsedImagesRef (heapGet st.heap st.parsedImagesRef ++ [img])
      uuidCtr := st.uuidCtr + 1 }

/-- One source document as the parse observes it: its base directory, its
raw text and the image hrefs marked encounters, in encounter order. -/
structure DocInput where
  baseDir : String
  text : String
  imageTags : List String
deriving Repr

/-- The value parseMarkdown returns: the `images` field is the reference
to the module-level array the call allocated. -/
structure MarkdownContentRef where
  html : String
  imagesRef : Nat
  title : Option String
deriving Repr

/-- parseMarkdown: resets the module-level state (fresh array, new base
directory), renders (pushing one entry per encountered image), and
returns the html, the image-array reference and the extracted title. -/
def parseMarkdownModel (doc : DocInput) (st : PMState) : MarkdownContentRef × PMState :=
  let r := st.nextRef
  let st1 : PMState :=
    { st with
        nextRef := st.nextRef + 1
        heap := heapSet st.heap r []
        parsedImagesRef := r
        currentBaseDir := doc.baseDir }
  let st2 := doc.imageTags.foldl customImageRendererStep st1
  ({ html := markedWithFootnotes doc.text, imagesRef := r, title := extractTitle doc.text }, st2)

/-- The image list a single call with the given inputs produces, as a pure
function of that call's own document and uuid supply. -/
def expectedImagesFrom (baseDir : String) (u : Nat) : List String → List ImageReference
  | [] => []
  | href :: rest =>
    { src := href
      resolvedPath := resolveHref baseDir href
      mediaType := mimeLookup href
      id := "img-" ++ natDec u } :: expectedImagesFrom baseDir (u + 1) rest

/-! ## Converter (converter.ts)

`freshUuid` models the `uuidv4()` used for a generated identifier and
`today` the `new Date().toISOString().split('T')[0]` creation date. -/

/-- The metadata convertMarkdownToEpub assembles for a single document:
title precedence `config?.title || title || basename`, with the JS
string-falsiness captured by `jsOr`. -/
def singleMetadata (config : Option Config) (p : ParsedInput) (freshUuid today : String) :
    EpubMetadata :=
  { title := jsOr (config.bind (·.title)) (jsOr p.title p.basename)
    author := jsOr (config.bind (·.author)) "Unknown Author"
    language := jsOr (config.bind (·.language)) "en"
    publisher := config.bind (·.publisher)
    description := config.bind (·.description)
    rights := some (jsOr (config.bind (·.rights)) "All rights reserved")
    identifier := jsOr (config.bind (·.identifier)) ("urn:uuid:" ++ freshUuid)
    cover := config.bind (·.cover)
    createdDate := today }

/-- The chapter built for the i-th input (1-based `n`): title is the
extracted title or the source basename, id `chapter-n`, order `n`. -/
def mkChaptersFrom (n : Nat) : List ParsedInput → List Chapter
  | [] => []
  | p :: ps =>
    { title := jsOr p.title p.basename
      html := p.html
      id := "chapter-" ++ natDec n
      order := n } :: mkChaptersFrom (n + 1) ps

/-- The body of the image-collection loop: skip a reference whose source
basename was already seen, otherwise append it and record the key. -/
def collectStep (acc : List ImageReference × List String) (img : ImageReference) :
    List ImageReference × List String :=
  let k := baseName img.src
  if acc.2.contains k then acc else (acc.1 ++ [img], acc.2 ++ [k])

/-- The nested per-file, per-image collection loop of
convertMarkdownFilesToChapters (`allImages` and `seenImages`). -/
def convertChaptersCollect (inputs : List ParsedInput) : List ImageReference × List String :=
  inputs.foldl (fun acc p => p.images.foldl collectStep acc) ([], [])

/-- First-occurrence deduplication by source basename, written as a
recursion; proved below to agree with the converter's fold. -/
def dedupeAux (seen : List String) : List ImageReference → List ImageReference
  | [] => []
  | img :: rest =>
    let k := baseName img.src
    if seen.contains k then dedupeAux seen rest
    else img :: dedupeAux (seen ++ [k]) rest

/-- convertMarkdownFilesToChapters up to the generateMultiChapterEpub
call: fails on an empty input list, otherwise builds the chapters, the
deduplicated image list, and the book metadata (whose title is
`config?.title || basename(inputPaths[0])` — the extracted titles feed
only the per-chapter titles). -/
def convertMarkdownFilesToChaptersModel (inputs : List ParsedInput) (config : Option Config)
    (freshUuid today : String) :
    Except String (List Chapter × List ImageReference × EpubMetadata) :=
  match inputs with
  | [] => .error "No input files provided"
  | p :: _ =>
    .ok (mkChaptersFrom 1 inputs,
         (convertChaptersCollect inputs).1,
         { title := jsOr (config.bind (·.title)) p.basename
           author := jsOr (config.bind (·.author)) "Unknown Author"
           language := jsOr (config.bind (·.language)) "en"
           publisher := config.bind (·.publisher)
           description := config.bind (·.description)
           rights := some (jsOr (config.bind (·.rights)) "All rights reserved")
           identifier := jsOr (config.bind (·.identifier)) ("urn:uuid:" ++ freshUuid)
           cover := config.bind (·.cover)
           createdDate := today })

/-! ## Helper lemmas -/

theorem string_ne_of_head {x y : String} {c : Char}
    (hx : x.data.head? = some c) (hy : y.data.head? ≠ some c) : x ≠ y := by
  intro he
  subst he
  exact hy hx

theorem string_ne_of_second {x y : String} {c : Char}
    (hx : x.data.get? 1 = some c) (hy : y.data.get? 1 ≠ some c) : x ≠ y := by
  intro he
  subst he
  exact hy hx

theorem images_href_head (b : String) : ("images/" ++ b).data.head? = some 'i' := by
  cases b
  rfl

theorem image_id_head (k : Nat) : ("image-" ++ natDec k).data.head? = some 'i' := by
  cases h : natDec k
  rfl

theorem chapter_id_head (k : Nat) : ("chapter-" ++ natDec k).data.head? = some 'c' := by
  cases h : natDec k
  rfl

theorem chapter_id_second (k : Nat) : ("chapter-" ++ natDec k).data.get? 1 = some 'h' := by
  cases h : natDec k
  rfl

theorem chapter_href_head (k : Nat) : (("chapter-" ++ natDec k) ++ ".xhtml").data.head? = some 'c' := by
  cases h : natDec k
  rfl

/-- Counting image manifest entries with a given href counts the image
references with the corresponding source basename. -/
theorem imageItemsFrom_countP_href (b : String) (l : List ImageReference) : ∀ k : Nat,
    (imageItemsFrom k l).countP (fun it => it.href = "images/" ++ b) =
      l.countP (fun i => baseName i.src = b) := by
  induction l with
  | nil => intro k; rfl
  | cons i rest ih =>
    intro k
    simp only [imageItemsFrom, List.countP_cons, ih]
    have : (("images/" ++ baseName i.src : String) = "images/" ++ b) ↔ baseName i.src = b :=
      string_append_left_cancel_iff _ _ _
    simp [this]

/-- No image manifest entry has an id that does not start with `i`. -/
theorem imageItemsFrom_countP_id_zero (target : String) (h : target.data.head? ≠ some 'i')
    (l : List ImageReference) : ∀ k : Nat,
    (imageItemsFrom k l).countP (fun it => it.id = target) = 0 := by
  induction l with
  | nil => intro k; rfl
  | cons i rest ih =>
    intro k
    have hne : ("image-" ++ natDec k : String) ≠ target :=
      string_ne_of_head (image_id_head k) h
    simp [imageItemsFrom, List.countP_cons, ih, hne]

/-- No image manifest entry has an href that does not start with `i`. -/
theorem imageItemsFrom_countP_href_zero (target : String) (h : target.data.head? ≠ some 'i')
    (l : List ImageReference) : ∀ k : Nat,
    (imageItemsFrom k l).countP (fun it => it.href = target) = 0 := by
  induction l with
  | nil => intro k; rfl
  | cons i rest ih =>
    intro k
    have hne : ("images/" ++ baseName i.src : String) ≠ target :=
      string_ne_of_head (images_href_head _) h
    simp [imageItemsFrom, List.countP_cons, ih, hne]

theorem coverItemList_countP_id_zero (m : EpubMetadata) (target : String)
    (hne : ("cover-image" : String) ≠ target) :
    (coverItemList m).countP (fun it => it.id = target) = 0 := by
  unfold coverItemList
  cases m.cover with
  | none => rfl
  | some c =>
    by_cases hc : c = "" <;> simp [hc, List.countP_cons, hne]

/-- Counting chapter manifest ids: `chapter-j` occurs exactly once among
the chapters numbered from `n` when `j` falls in their range. -/
theorem mkChaptersFrom_countP_id (inputs : List ParsedInput) : ∀ n j : Nat,
    ((mkChaptersFrom n inputs).map chapterOpfItem).countP
        (fun it => it.id = "chapter-" ++ natDec j) =
      if n ≤ j ∧ j < n + inputs.length then 1 else 0 := by
  induction inputs with
  | nil =>
    intro n j
    simp only [mkChaptersFrom, List.map_nil, List.countP_nil, List.length_nil]
    rw [if_neg (by omega)]
  | cons p ps ih =>
    intro n j
    have hiff : (("chapter-" ++ natDec n : String) = "chapter-" ++ natDec j) ↔ n = j := by
      rw [string_append_left_cancel_iff]
      exact ⟨fun h => natDec_injective h, fun h => by rw [h]⟩
    simp only [mkChaptersFrom, List.map_cons, List.countP_cons, ih, chapterOpfItem,
      decide_eq_true_eq, hiff, List.length_cons]
    split_ifs <;> omega

theorem mkChaptersFrom_countP_fixed_zero (target : String) (h : target.data.head? ≠ some 'c')
    (inputs : List ParsedInput) : ∀ n : Nat,
    ((mkChaptersFrom n inputs).map chapterOpfItem).countP (fun it => it.id = target) = 0 := by
  induction inputs with
  | nil => intro n; rfl
  | cons p ps ih =>
    intro n
    have hne : ("chapter-" ++ natDec n : String) ≠ target :=
      string_ne_of_head (chapter_id_head n) h
    simp [mkChaptersFrom, List.countP_cons, ih, hne, chapterOpfItem]

theorem mkChaptersFrom_length (inputs : List ParsedInput) : ∀ n : Nat,
    (mkChaptersFrom n inputs).length = inputs.length := by
  induction inputs with
  | nil => intro n; rfl
  | cons p ps ih => intro n; simp [mkChaptersFrom, ih]

/-! ### Deduplication lemmas (chapter-mode image collection) -/

theorem mem_of_contains_eq_true {l : List String} {a : String} (h : l.contains a = true) :
    a ∈ l :=
  List.mem_of_elem_eq_true h

theorem not_mem_of_contains_eq_false {l : List String} {a : String}
    (h : l.contains a = false) : a ∉ l := by
  intro hm
  have h2 := List.elem_eq_true_of_mem hm
  unfold List.contains at h
  rw [h2] at h
  simp at h

theorem dedupeAux_cons_seen {seen : List String} {i : ImageReference}
    (l : List ImageReference) (h : seen.contains (baseName i.src) = true) :
    dedupeAux seen (i :: l) = dedupeAux seen l := by
  simp [dedupeAux, mem_of_contains_eq_true h]

theorem dedupeAux_cons_new {seen : List String} {i : ImageReference}
    (l : List ImageReference) (h : seen.contains (baseName i.src) = false) :
    dedupeAux seen (i :: l) = i :: dedupeAux (seen ++ [baseName i.src]) l := by
  simp [dedupeAux, not_mem_of_contains_eq_false h]

theorem dedupeAux_countP_of_mem_seen (b : String) (l : List ImageReference) :
    ∀ seen : List String, b ∈ seen →
    (dedupeAux seen l).countP (fun i => baseName i.src = b) = 0 := by
  induction l with
  | nil => intro seen _; rfl
  | cons i rest ih =>
    intro seen hb
    cases hk : seen.contains (baseName i.src) with
    | true =>
      rw [dedupeAux_cons_seen rest hk]
      exact ih seen hb
    | false =>
      rw [dedupeAux_cons_new rest hk, List.countP_cons]
      have hbk : baseName i.src ≠ b := by
        intro he
        exact not_mem_of_contains_eq_false hk (by rw [he]; exact hb)
      have := ih (seen ++ [baseName i.src]) (List.mem_append_left _ hb)
      simp [this, hbk]

theorem dedupeAux_countP_of_not_seen (b : String) (l : List ImageReference) :
    ∀ seen : List String, b ∉ seen →
    b ∈ l.map (fun i => baseName i.src) →
    (dedupeAux seen l).countP (fun i => baseName i.src = b) = 1 := by
  induction l with
  | nil => intro seen _ hmem; simp at hmem
  | cons i rest ih =>
    intro seen hseen hmem
    cases hk : seen.contains (baseName i.src) with
    | true =>
      have hbk : baseName i.src ≠ b := by
        intro he
        rw [he] at hk
        exact hseen (List.mem_of_elem_eq_true hk)
      rw [dedupeAux_cons_seen rest hk]
      apply ih seen hseen
      simp only [List.map_cons, List.mem_cons] at hmem
      rcases hmem with h | h
      · exact absurd h.symm hbk
      · exact h
    | false =>
      rw [dedupeAux_cons_new rest hk, List.countP_cons]
      by_cases hbk : baseName i.src = b
      · rw [dedupeAux_countP_of_mem_seen b rest (seen ++ [baseName i.src])
          (by rw [hbk]; exact List.mem_append_right _ (List.mem_singleton_self b))]
        simp [hbk]
      · have hmem' : b ∈ rest.map (fun i => baseName i.src) := by
          simp only [List.map_cons, List.mem_cons] at hmem
          rcases hmem with h | h
          · exact absurd h.symm hbk
          · exact h
        have hseen' : b ∉ seen ++ [baseName i.src] := by
          intro hb
          rcases List.mem_append.mp hb with h | h
          · exact hseen h
          · exact hbk (List.mem_singleton.mp h).symm
        rw [ih _ hseen' hmem']
        simp [hbk]

/-- First occurrence wins: the deduplicated list's entry for a basename is
the first matching entry of the input. -/
theorem dedupeAux_find? (b : String) (l : List ImageReference) :
    ∀ seen : List String, b ∉ seen →
    (dedupeAux seen l).find? (fun i => baseName i.src = b) =
      l.find? (fun i => baseName i.src = b) := by
  induction l with
  | nil => intro seen _; rfl
  | cons i rest ih =>
    intro seen hseen
    cases hk : seen.contains (baseName i.src) with
    | true =>
      have hbk : baseName i.src ≠ b := by
        intro he
        rw [he] at hk
        exact hseen (List.mem_of_elem_eq_true hk)
      rw [dedupeAux_cons_seen rest hk]
      rw [List.find?_cons_of_neg _ (by simp [hbk])]
      exact ih seen hseen
    | false =>
      rw [dedupeAux_cons_new rest hk]
      by_cases hbk : baseName i.src = b
      · rw [List.find?_cons_of_pos _ (by simp [hbk]), List.find?_cons_of_pos _ (by simp [hbk])]
      · rw [List.find?_cons_of_neg _ (by simp [hbk]), List.find?_cons_of_neg _ (by simp [hbk])]
        apply ih
        intro hb
        rcases List.mem_append.mp hb with h | h
        · exact hseen h
        · exact hbk (List.mem_singleton.mp h).symm

/-- The converter's fold (`allImages`/`seenImages`) computes `dedupeAux`:
the kept images are `dedupeAux seen l` appended to the accumulator, and
the seen keys grow by exactly the kept images' basenames. -/
theorem foldl_collectStep (l : List ImageReference) :
    ∀ (a : List ImageReference) (seen : List String),
    l.foldl collectStep (a, seen) =
      (a ++ dedupeAux seen l, seen ++ (dedupeAux seen l).map (fun i => baseName i.src)) := by
  induction l with
  | nil => intro a seen; simp [dedupeAux]
  | cons i rest ih =>
    intro a seen
    cases hk : seen.contains (baseName i.src) with
    | true =>
      have hstep : collectStep (a, seen) i = (a, seen) := by
        simp [collectStep, mem_of_contains_eq_true hk]
      rw [List.foldl_cons, hstep, ih, dedupeAux_cons_seen rest hk]
    | false =>
      have hstep : collectStep (a, seen) i = (a ++ [i], seen ++ [baseName i.src]) := by
        simp [collectStep, not_mem_of_contains_eq_false hk]
      rw [List.foldl_cons, hstep, ih, dedupeAux_cons_new rest hk]
      simp [List.append_assoc]

theorem convertChaptersCollect_eq (inputs : List ParsedInput) :
    (convertChaptersCollect inputs).1 =
      dedupeAux [] ((inputs.map (·.images)).flatten) := by
  unfold convertChaptersCollect
  suffices h : ∀ (a : List ImageReference) (seen : List String),
      inputs.foldl (fun acc p => p.images.foldl collectStep acc) (a, seen) =
        (a ++ dedupeAux seen ((inputs.map (·.images)).flatten),
         seen ++ (dedupeAux seen ((inputs.map (·.images)).flatten)).map
           (fun i => baseName i.src)) by
    rw [h [] []]
    simp
  induction inputs with
  | nil => intro a seen; simp [dedupeAux]
  | cons p ps ih =>
    intro a seen
    simp only [List.foldl_cons, foldl_collectStep, List.map_cons, List.flatten_cons]
    rw [ih]
    have hsplit : ∀ (s : List String) (l₁ l₂ : List ImageReference),
        dedupeAux s (l₁ ++ l₂) =
          dedupeAux s l₁ ++
            dedupeAux (s ++ (dedupeAux s l₁).map (fun i => baseName i.src)) l₂ := by
      intro s l₁
      induction l₁ generalizing s with
      | nil => intro l₂; simp [dedupeAux]
      | cons i rest ih₁ =>
        intro l₂
        cases hk : s.contains (baseName i.src) with
        | true =>
          rw [List.cons_append, dedupeAux_cons_seen _ hk, dedupeAux_cons_seen _ hk]
          exact ih₁ s l₂
        | false =>
          rw [List.cons_append, dedupeAux_cons_new _ hk, dedupeAux_cons_new _ hk,
            ih₁ (s ++ [baseName i.src]) l₂]
          simp [List.append_assoc]
    rw [hsplit]
    simp [List.append_assoc]

/-! ### Heap lemmas for the parseMarkdown state model -/

theorem heapGet_heapSet_same (h : List (Nat × List ImageReference)) (r : Nat)
    (v : List ImageReference) : heapGet (heapSet h r v) r = v := by
  simp [heapGet, heapSet, List.lookup]

theorem heapGet_heapSet_other (h : List (Nat × List ImageReference)) {r r' : Nat}
    (hne : r' ≠ r) (v : List ImageReference) : heapGet (heapSet h r v) r' = heapGet h r' := by
  have hb : (r' == r) = false := by simp [hne]
  simp [heapGet, heapSet, List.lookup, hb]

/-- The rendering fold touches neither the reference bindings nor the base
directory, and advances the uuid counter once per image. -/
theorem foldl_renderer_fields (tags : List String) : ∀ st : PMState,
    (tags.foldl customImageRendererStep st).nextRef = st.nextRef ∧
    (tags.foldl customImageRendererStep st).parsedImagesRef = st.parsedImagesRef ∧
    (tags.foldl customImageRendererStep st).currentBaseDir = st.currentBaseDir ∧
    (tags.foldl customImageRendererStep st).uuidCtr = st.uuidCtr + tags.length := by
  induction tags with
  | nil => intro st; simp
  | cons t ts ih =>
    intro st
    have := ih (customImageRendererStep st t)
    simp only [List.foldl_cons]
    refine ⟨?_, ?_, ?_, ?_⟩
    · rw [this.1]; rfl
    · rw [this.2.1]; rfl
    · rw [this.2.2.1]; rfl
    · rw [this.2.2.2]; simp [customImageRendererStep]; omega

/-- The rendering fold appends to the array the module-level reference
points to exactly the images computed from its own inputs. -/
theorem foldl_renderer_heapGet_own (tags : List String) : ∀ st : PMState,
    heapGet (tags.foldl customImageRendererStep st).heap st.parsedImagesRef =
      heapGet st.heap st.parsedImagesRef ++
        expectedImagesFrom st.currentBaseDir st.uuidCtr tags := by
  induction tags with
  | nil => intro st; simp [expectedImagesFrom]
  | cons t ts ih =>
    intro st
    simp only [List.foldl_cons]
    have hstep : (customImageRendererStep st t).parsedImagesRef = st.parsedImagesRef := rfl
    have hbase : (customImageRendererStep st t).currentBaseDir = st.currentBaseDir := rfl
    have huuid : (customImageRendererStep st t).uuidCtr = st.uuidCtr + 1 := rfl
    have hrec := ih (customImageRendererStep st t)
    rw [hstep, hbase, huuid] at hrec
    rw [hrec]
    have hget : heapGet (customImageRendererStep st t).heap st.parsedImagesRef =
        heapGet st.heap st.parsedImagesRef ++
          [{ src := t, resolvedPath := resolveHref st.currentBaseDir t,
             mediaType := mimeLookup t, id := "img-" ++ natDec st.uuidCtr }] := by
      simp [customImageRendererStep, heapGet_heapSet_same]
    rw [hget]
    simp [expectedImagesFrom]

/-- The rendering fold leaves every other array untouched. -/
theorem foldl_renderer_heapGet_other (tags : List String) : ∀ (st : PMState) (r : Nat),
    r ≠ st.parsedImagesRef →
    heapGet (tags.foldl customImageRendererStep st).heap r = heapGet st.heap r := by
  induction tags with
  | nil => intro st r _; rfl
  | cons t ts ih =>
    intro st r hr
    simp only [List.foldl_cons]
    rw [ih (customImageRendererStep st t) r (by rw [show (customImageRendererStep st t).parsedImagesRef = st.parsedImagesRef from rfl]; exact hr)]
    simp [customImageRendererStep, heapGet_heapSet_other _ hr]

theorem expectedImagesFrom_proj (b : String) (l : List String) : ∀ u : Nat,
    (expectedImagesFrom b u l).map (fun i => (i.src, i.resolvedPath, i.mediaType)) =
      l.map (fun h => (h, resolveHref b h, mimeLookup h)) := by
  induction l with
  | nil => intro u; rfl
  | cons t ts ih => intro u; simp [expectedImagesFrom, ih]

/-! ### Manifest counting lemmas -/

theorem singleOpfItems_countP_content (m : EpubMetadata) (images : List ImageReference) :
    (singleOpfItems m images).countP (fun it => it.id = "content") = 1 := by
  have hcov := coverItemList_countP_id_zero m "content" (by decide)
  have himg := imageItemsFrom_countP_id_zero "content" (by decide) images 0
  show List.countP _ (ncxItem :: styleItem :: contentItem ::
    (coverItemList m ++ imageItemsFrom 0 images)) = 1
  rw [List.countP_cons, List.countP_cons, List.countP_cons, List.countP_append, hcov, himg]
  decide

theorem singleOpfItems_countP_style (m : EpubMetadata) (images : List ImageReference) :
    (singleOpfItems m images).countP (fun it => it.id = "style") = 1 := by
  have hcov := coverItemList_countP_id_zero m "style" (by decide)
  have himg := imageItemsFrom_countP_id_zero "style" (by decide) images 0
  show List.countP _ (ncxItem :: styleItem :: contentItem ::
    (coverItemList m ++ imageItemsFrom 0 images)) = 1
  rw [List.countP_cons, List.countP_cons, List.countP_cons, List.countP_append, hcov, himg]
  decide

theorem singleOpfItems_countP_ncx (m : EpubMetadata) (images : List ImageReference) :
    (singleOpfItems m images).countP (fun it => it.id = "ncx") = 1 := by
  have hcov := coverItemList_countP_id_zero m "ncx" (by decide)
  have himg := imageItemsFrom_countP_id_zero "ncx" (by decide) images 0
  show List.countP _ (ncxItem :: styleItem :: contentItem ::
    (coverItemList m ++ imageItemsFrom 0 images)) = 1
  rw [List.countP_cons, List.countP_cons, List.countP_cons, List.countP_append, hcov, himg]
  decide

theorem multiOpfItems_countP_ncx (m : EpubMetadata) (images : List ImageReference)
    (inputs : List ParsedInput) :
    (multiOpfItems m images (mkChaptersFrom 1 inputs)).countP (fun it => it.id = "ncx") = 1 := by
  have hch := mkChaptersFrom_countP_fixed_zero "ncx" (by decide) inputs 1
  have hcov := coverItemList_countP_id_zero m "ncx" (by decide)
  have himg := imageItemsFrom_countP_id_zero "ncx" (by decide) images 0
  show List.countP _ (ncxItem :: styleItem ::
    ((mkChaptersFrom 1 inputs).map chapterOpfItem ++ coverItemList m ++ imageItemsFrom 0 images)) = 1
  rw [List.countP_cons, List.countP_cons, List.countP_append, List.countP_append, hch, hcov, himg]
  decide

theorem multiOpfItems_countP_style (m : EpubMetadata) (images : List ImageReference)
    (inputs : List ParsedInput) :
    (multiOpfItems m images (mkChaptersFrom 1 inputs)).countP (fun it => it.id = "style") = 1 := by
  have hch := mkChaptersFrom_countP_fixed_zero "style" (by decide) inputs 1
  have hcov := coverItemList_countP_id_zero m "style" (by decide)
  have himg := imageItemsFrom_countP_id_zero "style" (by decide) images 0
  show List.countP _ (ncxItem :: styleItem ::
    ((mkChaptersFrom 1 inputs).map chapterOpfItem ++ coverItemList m ++ imageItemsFrom 0 images)) = 1
  rw [List.countP_cons, List.countP_cons, List.countP_append, List.countP_append, hch, hcov, himg]
  decide

theorem multiOpfItems_countP_chapter (m : EpubMetadata) (images : List ImageReference)
    (inputs : List ParsedInput) (j : Nat) (hj : j < inputs.length) :
    (multiOpfItems m images (mkChaptersFrom 1 inputs)).countP
      (fun it => it.id = "chapter-" ++ natDec (j + 1)) = 1 := by
  have hncx : ("ncx" : String) ≠ "chapter-" ++ natDec (j + 1) :=
    string_ne_of_head (c := 'n') (by decide) (by rw [chapter_id_head]; decide)
  have hstyle : ("style" : String) ≠ "chapter-" ++ natDec (j + 1) :=
    string_ne_of_head (c := 's') (by decide) (by rw [chapter_id_head]; decide)
  have hcov := coverItemList_countP_id_zero m ("chapter-" ++ natDec (j + 1))
    (string_ne_of_second (c := 'o') (by decide) (by rw [chapter_id_second]; decide))
  have himg := imageItemsFrom_countP_id_zero ("chapter-" ++ natDec (j + 1))
    (by rw [chapter_id_head]; decide) images 0
  have hch := mkChaptersFrom_countP_id inputs 1 (j + 1)
  rw [if_pos (by omega)] at hch
  show List.countP _ (ncxItem :: styleItem ::
    ((mkChaptersFrom 1 inputs).map chapterOpfItem ++ coverItemList m ++ imageItemsFrom 0 images)) = 1
  rw [List.countP_cons, List.countP_cons, List.countP_append, List.countP_append, hch, hcov, himg]
  simp [ncxItem, styleItem, hncx, hstyle]

theorem mkChaptersFrom_titles (l : List ParsedInput) : ∀ n : Nat,
    (mkChaptersFrom n l).map (·.title) = l.map (fun p => jsOr p.title p.basename) := by
  induction l with
  | nil => intro n; rfl
  | cons p ps ih => intro n; simp [mkChaptersFrom, ih]

/-! ### Footnote scanner lemmas (towards the general footnote round-trip) -/

theorem lookaheadStop_eq_false : ∀ {l : List Char}, l.head? ≠ some '\n' →
    lookaheadStop l = false
  | [], _ => rfl
  | c :: l, h => by
    have hc : c ≠ '\n' := fun he => h (by rw [he]; rfl)
    unfold lookaheadStop
    split
    · next heq => injection heq with h1 _; exact absurd h1 hc
    · next heq => injection heq with h1 _; exact absurd h1 hc
    · rfl

theorem defTextSplit_eq_none : ∀ {l : List Char}, defTextSplit l = none → l = [] := by
  intro l h
  cases l with
  | nil => rfl
  | cons c rest =>
    unfold defTextSplit at h
    by_cases hs : lookaheadStop rest = true
    · simp [hs] at h
    · simp only [Bool.not_eq_true] at hs
      simp only [hs, Bool.false_eq_true, if_false] at h
      cases hr : defTextSplit rest <;> simp [hr] at h

theorem defTextSplit_spec : ∀ {l t r : List Char}, defTextSplit l = some (t, r) →
    t ++ r = l ∧ t ≠ [] := by
  intro l
  induction l with
  | nil => intro t r h; simp [defTextSplit] at h
  | cons c rest ih =>
    intro t r h
    unfold defTextSplit at h
    by_cases hs : lookaheadStop rest = true
    · simp only [hs, if_true] at h
      injection h with h
      injection h with h1 h2
      rw [← h1, ← h2]
      exact ⟨rfl, by simp⟩
    · simp only [Bool.not_eq_true] at hs
      simp only [hs, Bool.false_eq_true, if_false] at h
      cases hr : defTextSplit rest with
      | some v =>
        obtain ⟨t', r'⟩ := v
        rw [hr] at h
        injection h with h
        injection h with h1 h2
        have := ih hr
        rw [← h1, ← h2]
        refine ⟨?_, by simp⟩
        simp [this.1]
      | none =>
        rw [hr] at h
        injection h with h
        injection h with h1 h2
        have hrest := defTextSplit_eq_none hr
        subst hrest
        rw [← h1, ← h2]
        exact ⟨rfl, by simp⟩

theorem defTextSplit_all : ∀ {l : List Char}, l ≠ [] → (∀ c ∈ l, c ≠ '\n') →
    defTextSplit l = some (l, []) := by
  intro l
  induction l with
  | nil => intro h _; exact absurd rfl h
  | cons c rest ih =>
    intro _ hn
    have hstop : lookaheadStop rest = false := by
      apply lookaheadStop_eq_false
      cases rest with
      | nil => simp
      | cons d t =>
        simp only [List.head?_cons, ne_eq, Option.some.injEq]
        exact hn d (by simp)
    unfold defTextSplit
    simp only [hstop, Bool.false_eq_true, if_false]
    cases hrest : rest with
    | nil => simp [defTextSplit]
    | cons d t =>
      rw [← hrest, ih (by rw [hrest]; simp) (fun x hx => hn x (List.mem_cons_of_mem c hx))]

theorem matchFootnoteDef_none_of_ne {c : Char} (l : List Char) (hc : c ≠ '[') :
    matchFootnoteDef (c :: l) = none := by
  unfold matchFootnoteDef
  split
  · next heq => injection heq with h1 _; exact absurd h1 hc
  · rfl

theorem matchFootnoteRef_none_of_ne {c : Char} (l : List Char) (hc : c ≠ '[') :
    matchFootnoteRef (c :: l) = none := by
  unfold matchFootnoteRef
  split
  · next heq => injection heq with h1 _; exact absurd h1 hc
  · rfl

/-- A successful reference match consumes at least one character. -/
theorem matchFootnoteRef_length {s : List Char} {id : String} {rest2 : List Char}
    (h : matchFootnoteRef s = some (id, rest2)) : rest2.length < s.length := by
  unfold matchFootnoteRef at h
  split at h
  · next rest heq =>
    split at h
    · simp at h
    · split at h
      · next rest2' heq2 =>
        split at h
        · simp at h
        · injection h with h
          injection h with h1 h2
          have hlen := congrArg List.length heq2
          simp only [List.length_drop, List.length_cons] at hlen
          subst h2
          simp only [List.length_cons]
          omega
      · simp at h
  · simp at h

/-- A successful definition match consumes at least one character. -/
theorem matchFootnoteDef_length {s : List Char} {id txt : String} {rest3 : List Char}
    (h : matchFootnoteDef s = some (id, txt, rest3)) : rest3.length < s.length := by
  unfold matchFootnoteDef at h
  split at h
  · next rest heq =>
    split at h
    · simp at h
    · split at h
      · next rest2 heq2 =>
        cases hds : defTextSplit (rest2.drop (rest2.takeWhile isWsChar).length) with
        | none => rw [hds] at h; simp at h
        | some v =>
          obtain ⟨txt', rest3'⟩ := v
          rw [hds] at h
          injection h with h
          injection h with h1 h
          injection h with h2 h3
          have hspec := defTextSplit_spec hds
          have hlen1 := congrArg List.length hspec.1
          simp only [List.length_append] at hlen1
          have hlen2 := congrArg List.length heq2
          simp only [List.length_drop, List.length_cons] at hlen2
          have hlen3 : (rest2.drop (rest2.takeWhile isWsChar).length).length ≤ rest2.length := by
            simp [List.length_drop]
          subst h3
          simp only [List.length_cons]
          omega
      · simp at h
  · simp at h

/-- The scanner's result does not depend on the fuel, as long as the fuel
covers the input length. -/
theorem scanFootnotes_fuel : ∀ n : Nat, ∀ s : List Char, s.length ≤ n →
    ∀ (f f' : Nat) (flag : Bool), s.length ≤ f → s.length ≤ f' →
    scanFootnotes f flag s = scanFootnotes f' flag s := by
  intro n
  induction n using Nat.strong_induction_on with
  | _ n ih =>
    intro s hsn f f' flag hf hf'
    cases s with
    | nil => cases f <;> cases f' <;> rfl
    | cons c t =>
      cases f with
      | zero => simp at hf
      | succ f =>
        cases f' with
        | zero => simp at hf'
        | succ f' =>
          unfold scanFootnotes
          cases hd : (if flag then matchFootnoteDef (c :: t) else none) with
          | some v =>
            obtain ⟨id, txt, rest2⟩ := v
            have hlt : rest2.length < (c :: t).length := by
              cases flag with
              | false => simp at hd
              | true => exact matchFootnoteDef_length (by simpa using hd)
            simp only [hd]
            simp only [List.length_cons] at hsn hf hf' hlt
            rw [ih rest2.length (by omega) rest2 le_rfl f f' false (by omega) (by omega)]
          | none =>
            simp only [hd]
            cases hr : matchFootnoteRef (c :: t) with
            | some v =>
              obtain ⟨id, rest2⟩ := v
              have hlt := matchFootnoteRef_length hr
              simp only [hr]
              simp only [List.length_cons] at hsn hf hf' hlt
              rw [ih rest2.length (by omega) rest2 le_rfl f f' false (by omega) (by omega)]
            | none =>
              simp only [hr]
              simp only [List.length_cons] at hsn hf hf'
              rw [ih t.length (by omega) t le_rfl f f' (c = '\n') (by omega) (by omega)]

/-- The line-start flag after scanning a run of plain characters. -/
def lastFlag (s : List Char) (flag : Bool) : Bool :=
  match s.getLast? with
  | none => flag
  | some c => c = '\n'

theorem lastFlag_cons (c : Char) (s : List Char) (flag : Bool) :
    lastFlag (c :: s) flag = lastFlag s (c = '\n') := by
  cases s with
  | nil => rfl
  | cons d t =>
    unfold lastFlag
    rw [List.getLast?_cons_cons]
    cases hg : (d :: t).getLast? with
    | none => simp at hg
    | some e => rfl

/-- Reduction of the definition matcher on a `[^` head. -/
theorem matchFootnoteDef_eq (rest : List Char) :
    matchFootnoteDef ('[' :: '^' :: rest) =
      (if idCapture rest = [] then none
       else
        match rest.drop (idCapture rest).length with
        | ']' :: ':' :: rest2 =>
          match defTextSplit (rest2.drop (rest2.takeWhile isWsChar).length) with
          | some (txt, rest3) => some (⟨idCapture rest⟩, trimStr ⟨txt⟩, rest3)
          | none => none
        | _ => none) := rfl

/-- Reduction of the reference matcher on a `[^` head. -/
theorem matchFootnoteRef_eq (rest : List Char) :
    matchFootnoteRef ('[' :: '^' :: rest) =
      (if idCapture rest = [] then none
       else
        match rest.drop (idCapture rest).length with
        | ']' :: rest2 =>
          if rest2.head? = some ':' then none else some (⟨idCapture rest⟩, rest2)
        | _ => none) := rfl

/-- One scanner step over a character that starts no footnote construct. -/
theorem scanFootnotes_text_step {c : Char} (hc : c ≠ '[') (f : Nat) (flag : Bool)
    (l : List Char) :
    scanFootnotes (f + 1) flag (c :: l) = FnTok.text c :: scanFootnotes f (c = '\n') l := by
  have hd := matchFootnoteDef_none_of_ne l hc
  have hr := matchFootnoteRef_none_of_ne l hc
  cases flag <;> simp [scanFootnotes, hd, hr]

/-- Characters that start no footnote construct pass through the scanner
as text tokens. -/
theorem scan_text (s : List Char) (hs : ∀ c ∈ s, c ≠ '[') :
    ∀ (rest : List Char) (flag : Bool) (f : Nat), s.length + rest.length ≤ f →
    scanFootnotes f flag (s ++ rest) =
      s.map FnTok.text ++ scanFootnotes (f - s.length) (lastFlag s flag) rest := by
  induction s with
  | nil => intro rest flag f h; simp [lastFlag]
  | cons c s' ih =>
    intro rest flag f h
    cases f with
    | zero => simp at h
    | succ f =>
      have hc : c ≠ '[' := hs c (by simp)
      show scanFootnotes (f + 1) flag (c :: (s' ++ rest)) = _
      rw [scanFootnotes_text_step hc]
      rw [ih (fun x hx => hs x (by simp [hx])) rest (c = '\n') f
        (by simp only [List.length_cons] at h; omega)]
      rw [lastFlag_cons]
      simp [Nat.succ_sub_succ]

theorem matchFootnoteDef_at_ref (w : List Char) (hw : w.head? ≠ some ':') :
    matchFootnoteDef ('[' :: '^' :: 'x' :: ']' :: w) = none := by
  rw [matchFootnoteDef_eq]
  rw [show idCapture ('x' :: ']' :: w) = ['x'] from rfl]
  simp only [List.length_cons, List.length_nil, List.drop_succ_cons, List.drop_zero,
    reduceCtorEq, if_false]
  cases w with
  | nil => rfl
  | cons a t =>
    have ha : a ≠ ':' := fun he => hw (by rw [List.head?_cons, he])
    split
    · next heq => injection heq with h1 h2; injection h2 with h2 _; exact absurd h2 ha
    · rfl

theorem matchFootnoteRef_at_ref (w : List Char) (hw : w.head? ≠ some ':') :
    matchFootnoteRef ('[' :: '^' :: 'x' :: ']' :: w) = some ("x", w) := by
  rw [matchFootnoteRef_eq]
  rw [show idCapture ('x' :: ']' :: w) = ['x'] from rfl]
  simp only [List.length_cons, List.length_nil, List.drop_succ_cons, List.drop_zero,
    reduceCtorEq, if_false]
  simp [hw]

theorem drop_takeWhile_length (p : Char → Bool) (l : List Char) :
    l.drop (l.takeWhile p).length = l.dropWhile p := by
  induction l with
  | nil => rfl
  | cons c t ih =>
    cases hc : p c with
    | true => simp [List.takeWhile_cons, List.dropWhile_cons, hc, ih]
    | false => simp [List.takeWhile_cons, List.dropWhile_cons, hc]

theorem matchFootnoteDef_at_def (note : List Char)
    (hn : ∀ c ∈ note, c ≠ '\n') (hne : note.dropWhile isWsChar ≠ []) :
    matchFootnoteDef ('[' :: '^' :: 'x' :: ']' :: ':' :: ' ' :: note) =
      some ("x", trimStr ⟨note.dropWhile isWsChar⟩, []) := by
  rw [matchFootnoteDef_eq]
  rw [show idCapture ('x' :: ']' :: ':' :: ' ' :: note) = ['x'] from rfl]
  simp only [List.length_cons, List.length_nil, List.drop_succ_cons, List.drop_zero,
    reduceCtorEq, if_false]
  have hws : (' ' :: note).takeWhile isWsChar = ' ' :: note.takeWhile isWsChar := by
    simp [List.takeWhile_cons]
    rfl
  rw [hws]
  simp only [List.length_cons, List.drop_succ_cons]
  rw [drop_takeWhile_length isWsChar note]
  rw [defTextSplit_all hne
    (fun c hc => hn c ((List.dropWhile_sublist isWsChar (l := note)).subset hc))]

/-- The scanner on the footnote round-trip scenario input: the
surrounding text passes through, the inline `[^x]` becomes one reference
token, and the `[^x]: note` block becomes one definition token. -/
theorem scan_scenario (pre mid note : List Char)
    (hpre : ∀ c ∈ pre, c ≠ '[')
    (hmid : ∀ c ∈ mid, c ≠ '[')
    (hmidc : mid.head? ≠ some ':')
    (hnote : ∀ c ∈ note, c ≠ '\n')
    (hne : note.dropWhile isWsChar ≠ []) :
    scanFootnotes
        (pre ++ '[' :: '^' :: 'x' :: ']' :: (mid ++ '\n' :: '\n' ::
          '[' :: '^' :: 'x' :: ']' :: ':' :: ' ' :: note)).length true
        (pre ++ '[' :: '^' :: 'x' :: ']' :: (mid ++ '\n' :: '\n' ::
          '[' :: '^' :: 'x' :: ']' :: ':' :: ' ' :: note)) =
      pre.map FnTok.text ++ FnTok.footnoteRef "x" ::
        (mid.map FnTok.text ++ FnTok.text '\n' :: FnTok.text '\n' ::
          [FnTok.footnote "x" (trimStr ⟨note.dropWhile isWsChar⟩)]) := by
  have hW : (mid ++ '\n' :: '\n' :: '[' :: '^' :: 'x' :: ']' :: ':' :: ' ' :: note).head? ≠
      some ':' := by
    cases mid with
    | nil => simp
    | cons a t =>
      simp only [List.cons_append, List.head?_cons, ne_eq, Option.some.injEq]
      intro ha
      exact hmidc (by simp [List.head?_cons, ha])
  rw [scan_text pre hpre _ true _ (by simp)]
  congr 1
  have hlen1 : (pre ++ '[' :: '^' :: 'x' :: ']' :: (mid ++ '\n' :: '\n' ::
      '[' :: '^' :: 'x' :: ']' :: ':' :: ' ' :: note)).length - pre.length =
      (3 + (mid ++ '\n' :: '\n' :: '[' :: '^' :: 'x' :: ']' :: ':' :: ' ' :: note).length) +
        1 := by
    simp [List.length_append]
    omega
  rw [hlen1]
  have hstep : ∀ (g : Nat) (flag : Bool),
      scanFootnotes (g + 1) flag ('[' :: '^' :: 'x' :: ']' ::
        (mid ++ '\n' :: '\n' :: '[' :: '^' :: 'x' :: ']' :: ':' :: ' ' :: note)) =
      FnTok.footnoteRef "x" :: scanFootnotes g false
        (mid ++ '\n' :: '\n' :: '[' :: '^' :: 'x' :: ']' :: ':' :: ' ' :: note) := by
    intro g flag
    have hd := matchFootnoteDef_at_ref _ hW
    have hr := matchFootnoteRef_at_ref _ hW
    cases flag <;> simp [scanFootnotes, hd, hr]
  rw [hstep]
  congr 1
  rw [scanFootnotes_fuel
    (mid ++ '\n' :: '\n' :: '[' :: '^' :: 'x' :: ']' :: ':' :: ' ' :: note).length _ le_rfl
    _ _ false (by omega) le_rfl]
  have hassoc : mid ++ '\n' :: '\n' :: '[' :: '^' :: 'x' :: ']' :: ':' :: ' ' :: note =
      (mid ++ ['\n', '\n']) ++ '[' :: '^' :: 'x' :: ']' :: ':' :: ' ' :: note := by
    simp
  rw [hassoc]
  rw [scan_text (mid ++ ['\n', '\n'])
    (by
      intro c hc
      rcases List.mem_append.mp hc with h | h
      · exact hmid c h
      · rcases List.mem_cons.mp h with h | h
        · rw [h]; decide
        · rw [List.mem_singleton.mp h]; decide)
    _ false _ (by simp [List.length_append]; omega)]
  have hflag2 : lastFlag (mid ++ ['\n', '\n']) false = true := by
    have hlast : (mid ++ ['\n', '\n']).getLast? = some '\n' := by
      rw [show mid ++ ['\n', '\n'] = (mid ++ ['\n']) ++ ['\n'] by simp]
      exact List.getLast?_concat _
    unfold lastFlag
    rw [hlast]
    decide
  have hlen2 : ((mid ++ ['\n', '\n']) ++ '[' :: '^' :: 'x' :: ']' :: ':' :: ' ' :: note).length -
      (mid ++ ['\n', '\n']).length = (5 + note.length) + 1 := by
    simp [List.length_append]
    omega
  rw [hflag2, hlen2]
  have hd2 := matchFootnoteDef_at_def note hnote hne
  have hstep2 : scanFootnotes ((5 + note.length) + 1) true
      ('[' :: '^' :: 'x' :: ']' :: ':' :: ' ' :: note) =
      [FnTok.footnote "x" (trimStr ⟨note.dropWhile isWsChar⟩)] := by
    simp only [scanFootnotes, hd2]
    cases h5 : 5 + note.length <;> rfl
  rw [hstep2]
  simp

/-! ### Substring counting over concatenations -/

/-- No occurrence of the pattern `p` straddles the boundary between `a`
and `b`. -/
def noCross (p a b : List Char) : Prop :=
  ∀ k, k < p.length → 0 < k →
    ¬((p.take k).isSuffixOf a = true ∧ (p.drop k).isPrefixOf b = true)

theorem prefix_append_cases {p x y : List Char} (h : p <+: x ++ y) :
    p <+: x ∨ (x <+: p ∧ p.drop x.length <+: y) := by
  by_cases hl : p.length ≤ x.length
  · exact Or.inl ((List.isPrefix_append_of_length hl).mp h)
  · right
    obtain ⟨t, ht⟩ := h
    constructor
    · have hx : x = p.take x.length := by
        have h1 : (p ++ t).take x.length = p.take x.length :=
          List.take_append_of_le_length (by omega)
        rw [ht] at h1
        rw [List.take_append_of_le_length le_rfl] at h1
        rw [List.take_length] at h1
        exact h1
      rw [hx]
      exact List.take_prefix _ _
    · have h2 : (p ++ t).drop x.length = p.drop x.length ++ t :=
        List.drop_append_of_le_length (by omega)
      rw [ht] at h2
      rw [List.drop_append_of_le_length le_rfl, List.drop_length] at h2
      exact ⟨t, by simpa using h2.symm⟩

theorem countSub_nil (p : List Char) : countSub p [] = 0 := rfl

/-- Splitting a substring count over an append with no straddling
occurrence. -/
theorem countSub_append_of_noCross (p : List Char) :
    ∀ (a b : List Char), noCross p a b →
    countSub p (a ++ b) = countSub p a + countSub p b := by
  intro a
  induction a with
  | nil => intro b _; simp [countSub]
  | cons c a' ih =>
    intro b hnc
    have hnc' : noCross p a' b := by
      intro k hk hk0 hand
      apply hnc k hk hk0
      refine ⟨?_, hand.2⟩
      have := List.isSuffixOf_iff_suffix.mp hand.1
      exact List.isSuffixOf_iff_suffix.mpr (this.trans (List.suffix_cons c a'))
    show (if p.isPrefixOf (c :: (a' ++ b)) then 1 else 0) + countSub p (a' ++ b) = _
    rw [ih b hnc']
    have hpref : p.isPrefixOf (c :: (a' ++ b)) = p.isPrefixOf (c :: a') := by
      by_cases hl : p.length ≤ (c :: a').length
      · cases hx : p.isPrefixOf (c :: a') with
        | true =>
          have := List.isPrefixOf_iff_prefix.mp hx
          have : p <+: (c :: a') ++ b := this.trans ((c :: a').prefix_append b)
          rw [show c :: (a' ++ b) = (c :: a') ++ b from rfl]
          exact List.isPrefixOf_iff_prefix.mpr this
        | false =>
          cases hy : p.isPrefixOf (c :: (a' ++ b)) with
          | false => rfl
          | true =>
            have hy' := List.isPrefixOf_iff_prefix.mp hy
            rw [show c :: (a' ++ b) = (c :: a') ++ b from rfl] at hy'
            have := (List.isPrefix_append_of_length hl).mp hy'
            rw [List.isPrefixOf_iff_prefix.mpr this] at hx
            exact hx
      · cases hy : p.isPrefixOf (c :: (a' ++ b)) with
        | false =>
          cases hx : p.isPrefixOf (c :: a') with
          | false => rfl
          | true =>
            have := (List.isPrefixOf_iff_prefix.mp hx).length_le
            omega
        | true =>
          exfalso
          have hy' := List.isPrefixOf_iff_prefix.mp hy
          rw [show c :: (a' ++ b) = (c :: a') ++ b from rfl] at hy'
          rcases prefix_append_cases hy' with hcase | ⟨hx, hrest⟩
          · have := hcase.length_le
            omega
          · apply hnc (c :: a').length (by simp only [List.length_cons] at hl ⊢; omega)
              (by simp)
            constructor
            · have htake : p.take (c :: a').length = c :: a' := by
                obtain ⟨t, ht⟩ := hx
                rw [← ht]
                rw [List.take_append_of_le_length le_rfl, List.take_length]
              rw [htake]
              exact List.isSuffixOf_iff_suffix.mpr (List.suffix_refl _)
            · exact List.isPrefixOf_iff_prefix.mpr hrest
    rw [hpref]
    show (if p.isPrefixOf (c :: a') then 1 else 0) + (countSub p a' + countSub p b) =
      ((if p.isPrefixOf (c :: a') then 1 else 0) + countSub p a') + countSub p b
    exact (Nat.add_assoc _ _ _).symm

/-- A pattern containing a character the text lacks never occurs. -/
theorem countSub_eq_zero_of_not_mem {p : List Char} {c : Char} (hc : c ∈ p) :
    ∀ {s : List Char}, c ∉ s → countSub p s = 0 := by
  intro s
  induction s with
  | nil => intro _; rfl
  | cons d t ih =>
    intro hs
    show (if p.isPrefixOf (d :: t) then 1 else 0) + countSub p t = 0
    have hpref : p.isPrefixOf (d :: t) = false := by
      cases hx : p.isPrefixOf (d :: t) with
      | false => rfl
      | true =>
        have := (List.isPrefixOf_iff_prefix.mp hx).subset hc
        exact absurd this hs
    rw [hpref]
    simp [ih (fun hmem => hs (List.mem_cons_of_mem d hmem))]

theorem head?_of_prefix {p : List Char} {c : Char} {l : List Char} (hne : p ≠ [])
    (h : p <+: c :: l) : p.head? = some c := by
  obtain ⟨t, ht⟩ := h
  cases p with
  | nil => exact absurd rfl hne
  | cons d q =>
    injection ht with h1 _
    rw [List.head?_cons, h1]

/-- The rendered reference token for id `x`, at character level. -/
def fnRefRender : List Char := ("<sup><a href=\"#fn-x\" id=\"ref-x\">x</a></sup>").data

/-- The rendered definition token's text before the note body. -/
def fnDefPrefix : List Char := ("<div class=\"footnote\" id=\"fn-x\">\n        <sup>x</sup> ").data

/-- The rendered definition token's text after the note body. -/
def fnDefSuffix : List Char := ("\n      </div>\n").data

theorem noCross_quotefree_left_concrete (p a C rest : List Char)
    (ha : ∀ c ∈ a, c ≠ '"')
    (hlen : p.length ≤ C.length)
    (hdec : ∀ k, k < p.length → 0 < k → '"' ∉ p.take k → ¬(p.drop k <+: C)) :
    noCross p a (C ++ rest) := by
  rintro k hk hk0 ⟨hsuf, hpre⟩
  by_cases hqk : '"' ∈ p.take k
  · have hmem := (List.isSuffixOf_iff_suffix.mp hsuf).subset hqk
    exact (ha _ hmem) rfl
  · have hp' := List.isPrefixOf_iff_prefix.mp hpre
    rcases prefix_append_cases hp' with hc | ⟨hx, -⟩
    · exact hdec k hk hk0 hqk hc
    · have h1 := hx.length_le
      have h2 : (p.drop k).length = p.length - k := List.length_drop _ _
      omega

theorem noCross_of_head_not_mem (p a : List Char) (c : Char) (rest : List Char)
    (hc : c ∉ p) : noCross p a (c :: rest) := by
  rintro k hk hk0 ⟨-, hpre⟩
  have hp' := List.isPrefixOf_iff_prefix.mp hpre
  have hne : p.drop k ≠ [] := by
    intro he
    have := congrArg List.length he
    simp only [List.length_drop, List.length_nil] at this
    omega
  have hhead := head?_of_prefix hne hp'
  apply hc
  apply List.drop_subset k p
  cases hd : p.drop k with
  | nil => exact absurd hd hne
  | cons e t =>
    rw [hd] at hhead
    rw [List.head?_cons] at hhead
    injection hhead with h1
    rw [← h1]
    exact List.mem_cons_self _ _

theorem noCross_concrete_left (p a : List Char)
    (hdec : ∀ k, k < p.length → 0 < k → ¬((p.take k).isSuffixOf a = true)) (b : List Char) :
    noCross p a b := fun k hk hk0 hand => hdec k hk hk0 hand.1

theorem noCross_left_all_c (p : List Char) (c : Char) (a : List Char)
    (hall : ∀ x ∈ a, x = c) (hc : c ∉ p) (b : List Char) : noCross p a b := by
  rintro k hk hk0 ⟨hsuf, -⟩
  have hsub := (List.isSuffixOf_iff_suffix.mp hsuf).subset
  have hne : p.take k ≠ [] := by
    intro he
    have := congrArg List.length he
    simp only [List.length_take, List.length_nil] at this
    omega
  obtain ⟨d, hd⟩ := List.exists_mem_of_ne_nil _ hne
  have hdc : d = c := hall d (hsub hd)
  rw [hdc] at hd
  exact hc (List.take_subset _ _ hd)

/-- Counting a double-quoted, newline-free pattern over the rendered
scenario output: only the rendered reference and definition can
contribute occurrences. -/
theorem countSub_scenario (p : List Char)
    (hq : '"' ∈ p) (hnl : '\n' ∉ p)
    (hlenR : p.length ≤ fnRefRender.length)
    (hdecR : ∀ k, k < p.length → 0 < k → '"' ∉ p.take k → ¬(p.drop k <+: fnRefRender))
    (hsufR : ∀ k, k < p.length → 0 < k → ¬((p.take k).isSuffixOf fnRefRender = true))
    (hsufD : ∀ k, k < p.length → 0 < k → ¬((p.take k).isSuffixOf fnDefPrefix = true))
    (pre mid T : List Char)
    (hpre : ∀ c ∈ pre, c ≠ '"') (hmid : ∀ c ∈ mid, c ≠ '"') (hT : ∀ c ∈ T, c ≠ '"') :
    countSub p (pre ++ (fnRefRender ++ (mid ++ ('\n' :: '\n' ::
        (fnDefPrefix ++ (T ++ fnDefSuffix)))))) =
      countSub p fnRefRender + countSub p fnDefPrefix + countSub p fnDefSuffix := by
  rw [countSub_append_of_noCross p pre _
    (noCross_quotefree_left_concrete p pre fnRefRender _ hpre hlenR hdecR)]
  rw [countSub_eq_zero_of_not_mem hq (fun hm => (hpre '"' hm) rfl)]
  rw [countSub_append_of_noCross p fnRefRender _ (noCross_concrete_left p fnRefRender hsufR _)]
  rw [countSub_append_of_noCross p mid _ (noCross_of_head_not_mem p mid '\n' _ hnl)]
  rw [countSub_eq_zero_of_not_mem hq (fun hm => (hmid '"' hm) rfl)]
  have hall : ∀ x ∈ (['\n', '\n'] : List Char), x = '\n' := by
    intro x hx
    rcases List.mem_cons.mp hx with h | h
    · exact h
    · exact List.mem_singleton.mp h
  have hqnl : '"' ∉ (['\n', '\n'] : List Char) := by decide
  rw [show ('\n' :: '\n' :: (fnDefPrefix ++ (T ++ fnDefSuffix))) =
    ['\n', '\n'] ++ (fnDefPrefix ++ (T ++ fnDefSuffix)) from rfl]
  rw [countSub_append_of_noCross p ['\n', '\n'] _ (noCross_left_all_c p '\n' _ hall hnl _)]
  rw [show countSub p ['\n', '\n'] = 0 from countSub_eq_zero_of_not_mem hq hqnl]
  rw [countSub_append_of_noCross p fnDefPrefix _ (noCross_concrete_left p fnDefPrefix hsufD _)]
  rw [countSub_append_of_noCross p T _
    (by
      rw [show fnDefSuffix = '\n' :: ("      </div>\n").data from rfl]
      exact noCross_of_head_not_mem p T '\n' _ hnl)]
  rw [countSub_eq_zero_of_not_mem hq (fun hm => (hT '"' hm) rfl)]
  omega

theorem string_foldl_append_data (l : List String) : ∀ acc : String,
    (l.foldl (fun r s => r ++ s) acc).data = acc.data ++ (l.map String.data).flatten := by
  induction l with
  | nil => intro acc; simp
  | cons s t ih =>
    intro acc
    rw [List.foldl_cons, ih (acc ++ s)]
    simp [string_append_data, List.append_assoc]

theorem string_join_data (l : List String) :
    (String.join l).data = (l.map String.data).flatten := by
  show (l.foldl (fun r s => r ++ s) "").data = _
  rw [string_foldl_append_data]
  rfl

theorem flatten_text_run (s : List Char) :
    (s.map (fun c => (renderFnTok (FnTok.text c)).data)).flatten = s := by
  induction s with
  | nil => rfl
  | cons c t ih =>
    show (renderFnTok (FnTok.text c)).data ++ _ = _
    rw [ih]
    rfl

theorem renderFnTok_ref_data : (renderFnTok (FnTok.footnoteRef "x")).data = fnRefRender := by
  decide

theorem renderFnTok_footnote_data (T : String) :
    (renderFnTok (FnTok.footnote "x" T)).data = fnDefPrefix ++ (T.data ++ fnDefSuffix) := by
  have hLit : ((((("<div class=\"footnote\" id=\"fn-" ++ "x") ++ "\">\n        <sup>") ++
      "x") ++ "</sup> ") : String) = "<div class=\"footnote\" id=\"fn-x\">\n        <sup>x</sup> " := by
    decide
  show (((((("<div class=\"footnote\" id=\"fn-" ++ "x") ++ "\">\n        <sup>") ++ "x") ++
      "</sup> ") ++ T) ++ "\n      </div>\n").data = _
  rw [hLit, string_append_data, string_append_data, List.append_assoc]
  rfl

/-- The rendered content of the scenario input, at character level. -/
theorem markedWithFootnotes_scenario (pre mid note : List Char)
    (hpre : ∀ c ∈ pre, c ≠ '[') (hmid : ∀ c ∈ mid, c ≠ '[')
    (hmidc : mid.head? ≠ some ':') (hnote : ∀ c ∈ note, c ≠ '\n')
    (hne : note.dropWhile isWsChar ≠ []) :
    (markedWithFootnotes ⟨pre ++ '[' :: '^' :: 'x' :: ']' :: (mid ++ '\n' :: '\n' ::
        '[' :: '^' :: 'x' :: ']' :: ':' :: ' ' :: note)⟩).data =
      pre ++ (fnRefRender ++ (mid ++ ('\n' :: '\n' ::
        (fnDefPrefix ++ ((trimStr ⟨note.dropWhile isWsChar⟩).data ++ fnDefSuffix))))) := by
  unfold markedWithFootnotes
  rw [show (String.mk (pre ++ '[' :: '^' :: 'x' :: ']' :: (mid ++ '\n' :: '\n' ::
    '[' :: '^' :: 'x' :: ']' :: ':' :: ' ' :: note))).data =
    pre ++ '[' :: '^' :: 'x' :: ']' :: (mid ++ '\n' :: '\n' ::
    '[' :: '^' :: 'x' :: ']' :: ':' :: ' ' :: note) from rfl]
  rw [scan_scenario pre mid note hpre hmid hmidc hnote hne]
  rw [string_join_data]
  simp only [List.map_append, List.map_cons, List.map_map, List.map_nil,
    List.flatten_append, List.flatten_cons, List.flatten_nil]
  rw [show (String.data ∘ renderFnTok ∘ FnTok.text) =
    (fun c => (renderFnTok (FnTok.text c)).data) from rfl]
  rw [flatten_text_run pre, flatten_text_run mid]
  rw [renderFnTok_ref_data, renderFnTok_footnote_data]
  rw [show (renderFnTok (FnTok.text '\n')).data = ['\n'] from rfl]
  simp [List.append_assoc]

/-! ## Concrete fixtures used by counterexamples and witnesses -/

def mX : EpubMetadata :=
  { title := "T", author := "A", language := "en", publisher := none, description := none,
    rights := none, identifier := "urn:uuid:0000", cover := none, createdDate := "2024-01-01" }

def mAmp : EpubMetadata :=
  { title := "T", author := "A", language := "a&b", publisher := none, description := none,
    rights := none, identifier := "id1", cover := none, createdDate := "2024-01-01" }

def imgPic : ImageReference := ⟨"assets/pic.png", "/doc/assets/pic.png", "image/png", "img-1"⟩

def imgPic2 : ImageReference := ⟨"other/pic.png", "/doc/other/pic.png", "image/png", "img-2"⟩

/-! ## Claim theorems -/

/-- C1: in every generated archive the `mimetype` marker is the first
entry and holds exactly the bytes `application/epub+zip`, as the claim
states; but the claim's requirement that it be the only entry stored with
no compression fails against the code: `archive.append` is called with
options that do not set `store`, so archiver deflates the marker (at zlib
level 9) like every other entry — no entry of the archive is stored.
This contradicts the source's own comment ("must be uncompressed for EPUB
spec compliance"), so the code, not the claim, is wrong. -/
theorem C1_mimetype_first_but_deflated (htmlContent : String) (m : EpubMetadata)
    (images : List ImageReference) (fetchOk : ImageReference → Bool) (coverOk : Bool)
    (today : String) :
    (createEpubArchive
        (createEpubStructureFiles htmlContent m images fetchOk coverOk today).1).head? =
      some { name := "mimetype", data := "application/epub+zip", store := false } ∧
    ∀ e ∈ createEpubArchive
        (createEpubStructureFiles htmlContent m images fetchOk coverOk today).1,
      e.store = false := by
  constructor
  · simp [createEpubArchive, createEpubStructureFiles, List.lookup]
  · intro e he
    simp only [createEpubArchive, List.mem_cons, List.mem_append, List.mem_map] at he
    rcases he with he | ⟨f, -, he⟩ | ⟨f, -, he⟩
    · rw [he]
    · rw [← he]
    · rw [← he]

/-- C1 witness: the theorem at a concrete conversion. -/
theorem C1_mimetype_first_but_deflated_witness :
    (createEpubArchive
        (createEpubStructureFiles "<p>x</p>" mX [] (fun _ => true) true "2024-01-01").1).head? =
      some { name := "mimetype", data := "application/epub+zip", store := false } ∧
    ∀ e ∈ createEpubArchive
        (createEpubStructureFiles "<p>x</p>" mX [] (fun _ => true) true "2024-01-01").1,
      e.store = false :=
  C1_mimetype_first_but_deflated "<p>x</p>" mX [] (fun _ => true) true "2024-01-01"

/-- C2 counterexample: a document referencing a single local image that
cannot be materialized still converts — one warning, no image file staged
— but the produced package is NOT "missing only that one manifest image
entry": content.opf is generated from the full image list before assets
are materialized, so the failed asset's manifest entry (`image-0`,
href `images/pic.png`) is still present. -/
theorem C2_failed_asset_manifest_entry_present :
    (createEpubStructureFiles "<p>x</p>" mX [imgPic] (fun _ => false) true "2024-01-01").2 =
      ["Warning: Could not process image assets/pic.png"] ∧
    ((createEpubStructureFiles "<p>x</p>" mX [imgPic] (fun _ => false) true "2024-01-01").1.map
      Prod.fst).contains "OEBPS/images/pic.png" = false ∧
    (singleOpfItems mX [imgPic]).countP (fun it => it.href = "images/pic.png") = 1 := by
  decide

/-- C2 (amended): a failed asset is non-fatal — the conversion completes,
records exactly one warning, and stages every fixed package file but not
the asset's file; the staged content.opf, however, is generated from the
full image list, so the failed asset's manifest entry is still present
(the asset is missing from the package as a file, not as a manifest
entry). -/
theorem C2_failed_asset_degradation (htmlContent : String) (m : EpubMetadata)
    (img : ImageReference) (fetchOk : ImageReference → Bool) (coverOk : Bool) (today : String)
    (hfail : fetchOk img = false) (hcov : m.cover = none) :
    (createEpubStructureFiles htmlContent m [img] fetchOk coverOk today).2 =
      ["Warning: Could not process image " ++ img.src] ∧
    (createEpubStructureFiles htmlContent m [img] fetchOk coverOk today).1.map Prod.fst =
      ["mimetype", "META-INF/container.xml", "OEBPS/content.opf", "OEBPS/toc.ncx",
       "OEBPS/content.xhtml", "OEBPS/css/style.css"] ∧
    List.lookup "OEBPS/content.opf"
        (createEpubStructureFiles htmlContent m [img] fetchOk coverOk today).1 =
      some (getContentOpf m [img] today) ∧
    (singleOpfItems m [img]).countP
      (fun it => it.href = "images/" ++ baseName img.src) = 1 := by
  refine ⟨?_, ?_, ?_, ?_⟩
  · simp [createEpubStructureFiles, materializeImages, materializeCover, hfail, hcov]
  · simp [createEpubStructureFiles, materializeImages, materializeCover, hfail, hcov]
  · simp [createEpubStructureFiles, materializeImages, materializeCover, hfail, hcov,
      List.lookup]
  · have himg := imageItemsFrom_countP_href (baseName img.src) [img] 0
    have h1 : ("toc.ncx" : String) ≠ "images/" ++ baseName img.src :=
      string_ne_of_head (c := 't') (by decide) (by rw [images_href_head]; decide)
    have h2 : ("css/style.css" : String) ≠ "images/" ++ baseName img.src :=
      string_ne_of_head (c := 'c') (by decide) (by rw [images_href_head]; decide)
    have h3 : ("content.xhtml" : String) ≠ "images/" ++ baseName img.src :=
      string_ne_of_head (c := 'c') (by decide) (by rw [images_href_head]; decide)
    show List.countP _ (ncxItem :: styleItem :: contentItem ::
      (coverItemList m ++ imageItemsFrom 0 [img])) = 1
    rw [List.countP_cons, List.countP_cons, List.countP_cons, List.countP_append, himg]
    simp [hcov, coverItemList, ncxItem, styleItem, contentItem, h1, h2, h3]

/-- C2 witness: the amended statement at a concrete failing image. -/
theorem C2_failed_asset_degradation_witness :
    (createEpubStructureFiles "<p>x</p>" mX [imgPic] (fun _ => false) true "2024-01-01").2 =
      ["Warning: Could not process image " ++ imgPic.src] ∧
    (createEpubStructureFiles "<p>x</p>" mX [imgPic] (fun _ => false) true "2024-01-01").1.map
        Prod.fst =
      ["mimetype", "META-INF/container.xml", "OEBPS/content.opf", "OEBPS/toc.ncx",
       "OEBPS/content.xhtml", "OEBPS/css/style.css"] ∧
    List.lookup "OEBPS/content.opf"
        (createEpubStructureFiles "<p>x</p>" mX [imgPic] (fun _ => false) true "2024-01-01").1 =
      some (getContentOpf mX [imgPic] "2024-01-01") ∧
    (singleOpfItems mX [imgPic]).countP
      (fun it => it.href = "images/" ++ baseName imgPic.src) = 1 :=
  C2_failed_asset_degradation "<p>x</p>" mX imgPic (fun _ => false) true "2024-01-01"
    (by decide) (by decide)

/-- C3 counterexample: in single-document mode the manifest is generated
with one entry per image reference and no deduplication, so a document
whose image list contains two references with the same base filename
yields TWO manifest entries for that asset, not one. -/
theorem C3_single_mode_duplicate_asset_entries :
    (singleOpfItems mX [imgPic, imgPic2]).countP (fun it => it.href = "images/pic.png") = 2 := by
  decide

/-- C3 (amended): in both modes the content documents, the stylesheet and
the navigation file are listed exactly once, every spine idref names a
manifest id and every navigation target names a manifest href; image
manifest entries, however, are one per REFERENCE: in single-document mode
an asset referenced twice under the same basename gets two entries, while
in chapter mode the converter's deduplication guarantees exactly one
entry per distinct basename (the cover, when present, has its own
independent entry). -/
theorem C3_manifest_spine_consistency (m : EpubMetadata) (images : List ImageReference)
    (inputs : List ParsedInput) :
    (singleOpfItems m images).countP (fun it => it.id = "content") = 1 ∧
    (singleOpfItems m images).countP (fun it => it.id = "style") = 1 ∧
    (singleOpfItems m images).countP (fun it => it.id = "ncx") = 1 ∧
    (∀ r ∈ singleSpineIdrefs, r ∈ (singleOpfItems m images).map (·.id)) ∧
    (∀ s ∈ singleNcxSrcs, s ∈ (singleOpfItems m images).map (·.href)) ∧
    (∀ b : String, (imageItemsFrom 0 images).countP (fun it => it.href = "images/" ++ b) =
      images.countP (fun i => baseName i.src = b)) ∧
    (multiOpfItems m ((convertChaptersCollect inputs).1) (mkChaptersFrom 1 inputs)).countP
      (fun it => it.id = "ncx") = 1 ∧
    (multiOpfItems m ((convertChaptersCollect inputs).1) (mkChaptersFrom 1 inputs)).countP
      (fun it => it.id = "style") = 1 ∧
    (∀ j : Nat, j < inputs.length →
      (multiOpfItems m ((convertChaptersCollect inputs).1) (mkChaptersFrom 1 inputs)).countP
        (fun it => it.id = "chapter-" ++ natDec (j + 1)) = 1) ∧
    (∀ r ∈ multiSpineIdrefs (mkChaptersFrom 1 inputs),
      r ∈ (multiOpfItems m ((convertChaptersCollect inputs).1)
            (mkChaptersFrom 1 inputs)).map (·.id)) ∧
    (∀ s ∈ multiNcxSrcs (mkChaptersFrom 1 inputs),
      s ∈ (multiOpfItems m ((convertChaptersCollect inputs).1)
            (mkChaptersFrom 1 inputs)).map (·.href)) ∧
    (∀ b : String, b ∈ ((inputs.map (·.images)).flatten).map (fun i => baseName i.src) →
      (imageItemsFrom 0 ((convertChaptersCollect inputs).1)).countP
        (fun it => it.href = "images/" ++ b) = 1) := by
  refine ⟨singleOpfItems_countP_content m images, singleOpfItems_countP_style m images,
    singleOpfItems_countP_ncx m images, ?_, ?_,
    fun b => imageItemsFrom_countP_href b images 0,
    multiOpfItems_countP_ncx m _ inputs, multiOpfItems_countP_style m _ inputs,
    fun j hj => multiOpfItems_countP_chapter m _ inputs j hj, ?_, ?_, ?_⟩
  · intro r hr
    simp only [singleSpineIdrefs, List.mem_singleton] at hr
    subst hr
    simp [singleOpfItems, contentItem, ncxItem, styleItem]
  · intro s hs
    simp only [singleNcxSrcs, List.mem_singleton] at hs
    subst hs
    simp [singleOpfItems, contentItem, ncxItem, styleItem]
  · intro r hr
    simp only [multiSpineIdrefs] at hr
    simp only [multiOpfItems, List.map_cons, List.map_append, List.map_map, List.mem_cons]
    right; right
    apply List.mem_append_left
    apply List.mem_append_left
    simpa [Function.comp, chapterOpfItem] using hr
  · intro s hs
    simp only [multiNcxSrcs] at hs
    simp only [multiOpfItems, List.map_cons, List.map_append, List.map_map, List.mem_cons]
    right; right
    apply List.mem_append_left
    apply List.mem_append_left
    simpa [Function.comp, chapterOpfItem] using hs
  · intro b hb
    rw [imageItemsFrom_countP_href, convertChaptersCollect_eq]
    exact dedupeAux_countP_of_not_seen b _ [] (by simp) hb

/-- C3 witness: the amended statement exercised at a concrete two-chapter
input whose documents share an image basename. -/
theorem C3_manifest_spine_consistency_witness :
    ("chapter-1" ∈ (multiOpfItems mX
        ((convertChaptersCollect [⟨"a", "", [imgPic], none⟩, ⟨"b", "", [imgPic2], none⟩]).1)
        (mkChaptersFrom 1 [⟨"a", "", [imgPic], none⟩, ⟨"b", "", [imgPic2], none⟩])).map (·.id)) ∧
    (imageItemsFrom 0
        ((convertChaptersCollect [⟨"a", "", [imgPic], none⟩, ⟨"b", "", [imgPic2], none⟩]).1)).countP
      (fun it => it.href = "images/" ++ "pic.png") = 1 := by
  have h := C3_manifest_spine_consistency mX []
    [⟨"a", "", [imgPic], none⟩, ⟨"b", "", [imgPic2], none⟩]
  exact ⟨h.2.2.2.2.2.2.2.2.2.1 "chapter-1" (by decide),
    h.2.2.2.2.2.2.2.2.2.2.2 "pic.png" (by decide)⟩

/-- C4: chapter-mode image aggregation deduplicates by the basename of the
written reference with the first occurrence winning: any basename present
among the input documents' references has exactly one retained reference
(the first in input order) and exactly one manifest entry. -/
theorem C4_chapter_image_dedup (inputs : List ParsedInput) (b : String)
    (hb : b ∈ ((inputs.map (·.images)).flatten).map (fun i => baseName i.src)) :
    (convertChaptersCollect inputs).1.countP (fun i => baseName i.src = b) = 1 ∧
    (convertChaptersCollect inputs).1.find? (fun i => baseName i.src = b) =
      ((inputs.map (·.images)).flatten).find? (fun i => baseName i.src = b) ∧
    (imageItemsFrom 0 ((convertChaptersCollect inputs).1)).countP
      (fun it => it.href = "images/" ++ b) = 1 := by
  have he := convertChaptersCollect_eq inputs
  refine ⟨?_, ?_, ?_⟩
  · rw [he]
    exact dedupeAux_countP_of_not_seen b _ [] (by simp) hb
  · rw [he]
    exact dedupeAux_find? b _ [] (by simp)
  · rw [imageItemsFrom_countP_href, he]
    exact dedupeAux_countP_of_not_seen b _ [] (by simp) hb

/-- C4 witness: two chapters referencing `pic.png` under different paths;
the retained reference is the first one. -/
theorem C4_chapter_image_dedup_witness :
    ("pic.png" ∈ (([⟨"a", "", [imgPic], none⟩,
        (⟨"b", "", [imgPic2], none⟩ : ParsedInput)].map (·.images)).flatten).map
      (fun i => baseName i.src)) ∧
    ((convertChaptersCollect [⟨"a", "", [imgPic], none⟩, ⟨"b", "", [imgPic2], none⟩]).1.countP
        (fun i => baseName i.src = "pic.png") = 1 ∧
      (convertChaptersCollect [⟨"a", "", [imgPic], none⟩, ⟨"b", "", [imgPic2], none⟩]).1.find?
          (fun i => baseName i.src = "pic.png") =
        (([⟨"a", "", [imgPic], none⟩,
            (⟨"b", "", [imgPic2], none⟩ : ParsedInput)].map (·.images)).flatten).find?
          (fun i => baseName i.src = "pic.png") ∧
      (imageItemsFrom 0
          ((convertChaptersCollect [⟨"a", "", [imgPic], none⟩, ⟨"b", "", [imgPic2], none⟩]).1)).countP
        (fun it => it.href = "images/" ++ "pic.png") = 1) :=
  ⟨by decide,
   C4_chapter_image_dedup [⟨"a", "", [imgPic], none⟩, ⟨"b", "", [imgPic2], none⟩] "pic.png"
     (by decide)⟩

/-- C5 counterexample: in chapter mode the book metadata title is
`config?.title || basename(inputPaths[0])` — the extracted first heading
is never consulted.  With no override and a first document whose heading
is `Intro` and whose basename is `ch1`, the claimed precedence demands
`Intro`, but the code produces `ch1`. -/
theorem C5_chapter_book_title_skips_heading :
    (convertMarkdownFilesToChaptersModel [⟨"ch1", "<h1>Intro</h1>", [], some "Intro"⟩]
        none "u" "d").map (fun r => r.2.2.title) = .ok "ch1" ∧
    ("ch1" : String) ≠ "Intro" := by
  decide

/-- C5 (amended): the precedence explicit override > extracted heading >
basename holds for single-document metadata (and its navigation label,
which is the escaped metadata title); в chapter mode each chapter's
navigation label follows extracted title > basename (there is no
per-chapter override), but the book metadata title is the config override
or the FIRST input's basename — extracted headings are not consulted. -/
theorem C5_title_precedence (cfg : Option Config) (p : ParsedInput) (freshUuid today : String)
    (inputs : List ParsedInput) (q : ParsedInput) :
    (∀ t, cfg.bind (·.title) = some t → t ≠ "" →
      (singleMetadata cfg p freshUuid today).title = t) ∧
    ((cfg.bind (·.title) = none ∨ cfg.bind (·.title) = some "") →
      ∀ e, p.title = some e → e ≠ "" →
      (singleMetadata cfg p freshUuid today).title = e) ∧
    ((cfg.bind (·.title) = none ∨ cfg.bind (·.title) = some "") →
      (p.title = none ∨ p.title = some "") →
      (singleMetadata cfg p freshUuid today).title = p.basename) ∧
    escapeXml (singleMetadata cfg p freshUuid today).title ∈
      ncxPieces (singleMetadata cfg p freshUuid today) ∧
    (mkChaptersFrom 1 inputs).map (·.title) =
      inputs.map (fun i => jsOr i.title i.basename) ∧
    (∀ r, convertMarkdownFilesToChaptersModel (q :: inputs) cfg freshUuid today = .ok r →
      r.2.2.title = jsOr (cfg.bind (·.title)) q.basename) := by
  refine ⟨?_, ?_, ?_, ?_, mkChaptersFrom_titles inputs 1, ?_⟩
  · intro t ht hne
    simp [singleMetadata, jsOr, ht, hne]
  · rintro (hc | hc) e he hne <;> simp [singleMetadata, jsOr, hc, he, hne]
  · rintro (hc | hc) (hp | hp) <;> simp [singleMetadata, jsOr, hc, hp]
  · simp [ncxPieces]
  · intro r hr
    simp only [convertMarkdownFilesToChaptersModel, Except.ok.injEq] at hr
    rw [← hr]

/-- C5 witness: the three single-mode precedence cases at concrete
inputs, and the chapter-mode book title at a concrete input. -/
theorem C5_title_precedence_witness :
    (singleMetadata (some { title := some "Override" }) ⟨"doc", "", [], some "Intro"⟩
      "u" "d").title = "Override" ∧
    (singleMetadata none ⟨"doc", "", [], some "Intro"⟩ "u" "d").title = "Intro" ∧
    (singleMetadata none ⟨"doc", "", [], none⟩ "u" "d").title = "doc" ∧
    (∀ r, convertMarkdownFilesToChaptersModel [⟨"ch1", "", [], some "Intro"⟩] none "u" "d" =
        .ok r → r.2.2.title = jsOr none "ch1") :=
  ⟨(C5_title_precedence (some { title := some "Override" }) ⟨"doc", "", [], some "Intro"⟩
      "u" "d" [] ⟨"", "", [], none⟩).1 "Override" rfl (by decide),
   (C5_title_precedence none ⟨"doc", "", [], some "Intro"⟩ "u" "d" []
      ⟨"", "", [], none⟩).2.1 (Or.inl rfl) "Intro" rfl (by decide),
   (C5_title_precedence none ⟨"doc", "", [], none⟩ "u" "d" []
      ⟨"", "", [], none⟩).2.2.1 (Or.inl rfl) (Or.inl rfl),
   (C5_title_precedence none ⟨"doc", "", [], none⟩ "u" "d" []
      ⟨"ch1", "", [], some "Intro"⟩).2.2.2.2.2⟩

theorem trimStr_data_subset {c : Char} {l : List Char} (h : c ∈ (trimStr ⟨l⟩).data) :
    c ∈ l := by
  unfold trimStr at h
  simp only [List.mem_reverse] at h
  have h2 : c ∈ (List.dropWhile isWsChar l).reverse := (List.dropWhile_sublist isWsChar).subset h
  rw [List.mem_reverse] at h2
  exact (List.dropWhile_sublist isWsChar).subset h2

/-- C6: for any input of the form `pre [^x] mid`, blank line, `[^x]: note`
— i.e. an input containing an inline footnote reference `[^x]` not
followed by a colon and a footnote definition `[^x]: note` — where the
surrounding text contains no bracket or double quote, `mid` does not
start with a colon, and the note is a nonblank single line without double
quotes, the produced content document contains exactly one anchor element
with id `fn-x` and exactly one link targeting `#fn-x`, the link rendered
inside a `<sup>` superscript. -/
theorem C6_footnote_round_trip (pre mid note : List Char)
    (hpre : ∀ c ∈ pre, c ≠ '[' ∧ c ≠ '"')
    (hmid : ∀ c ∈ mid, c ≠ '[' ∧ c ≠ '"')
    (hmidc : mid.head? ≠ some ':')
    (hnote : ∀ c ∈ note, c ≠ '\n' ∧ c ≠ '"')
    (hne : note.dropWhile isWsChar ≠ []) :
    countSub ("id=\"fn-x\"").data
      (markedWithFootnotes ⟨pre ++ '[' :: '^' :: 'x' :: ']' :: (mid ++ '\n' :: '\n' ::
        '[' :: '^' :: 'x' :: ']' :: ':' :: ' ' :: note)⟩).data = 1 ∧
    countSub ("href=\"#fn-x\"").data
      (markedWithFootnotes ⟨pre ++ '[' :: '^' :: 'x' :: ']' :: (mid ++ '\n' :: '\n' ::
        '[' :: '^' :: 'x' :: ']' :: ':' :: ' ' :: note)⟩).data = 1 ∧
    countSub ("<sup><a href=\"#fn-x\"").data
      (markedWithFootnotes ⟨pre ++ '[' :: '^' :: 'x' :: ']' :: (mid ++ '\n' :: '\n' ::
        '[' :: '^' :: 'x' :: ']' :: ':' :: ' ' :: note)⟩).data = 1 := by
  have hT : ∀ c ∈ (trimStr ⟨note.dropWhile isWsChar⟩).data, c ≠ '"' := by
    intro c hc
    exact (hnote c ((List.dropWhile_sublist isWsChar).subset (trimStr_data_subset hc))).2
  rw [markedWithFootnotes_scenario pre mid note (fun c h => (hpre c h).1)
    (fun c h => (hmid c h).1) hmidc (fun c h => (hnote c h).1) hne]
  refine ⟨?_, ?_, ?_⟩ <;>
    rw [countSub_scenario _ (by decide) (by decide) (by decide) (by decide) (by decide)
      (by decide) pre mid _ (fun c h => (hpre c h).2) (fun c h => (hmid c h).2) hT] <;>
    decide

/-- C6 witness: the general theorem at the concrete scenario input
`A claim[^x] here.` / blank line / `[^x]: the note text`. -/
theorem C6_footnote_round_trip_witness :
    countSub ("id=\"fn-x\"").data
      (markedWithFootnotes ⟨("A claim").data ++ '[' :: '^' :: 'x' :: ']' ::
        ((" here.").data ++ '\n' :: '\n' ::
        '[' :: '^' :: 'x' :: ']' :: ':' :: ' ' :: ("the note text").data)⟩).data = 1 ∧
    countSub ("href=\"#fn-x\"").data
      (markedWithFootnotes ⟨("A claim").data ++ '[' :: '^' :: 'x' :: ']' ::
        ((" here.").data ++ '\n' :: '\n' ::
        '[' :: '^' :: 'x' :: ']' :: ':' :: ' ' :: ("the note text").data)⟩).data = 1 ∧
    countSub ("<sup><a href=\"#fn-x\"").data
      (markedWithFootnotes ⟨("A claim").data ++ '[' :: '^' :: 'x' :: ']' ::
        ((" here.").data ++ '\n' :: '\n' ::
        '[' :: '^' :: 'x' :: ']' :: ':' :: ' ' :: ("the note text").data)⟩).data = 1 :=
  C6_footnote_round_trip ("A claim").data (" here.").data ("the note text").data
    (by decide) (by decide) (by decide) (by decide) (by decide)

/-- C7 counterexample: `downloadImage` rejects every terminal status other
than exactly 200 — including the 2xx response 204, which the claim says
must succeed. -/
theorem C7_two_oh_four_rejected :
    downloadImage [⟨204, none, "B"⟩] = .error "Failed to download image: 204" := by
  decide

theorem downloadImage_cons_redirect {r : HttpResponse} {rest : List HttpResponse}
    (h : isRedirect r = true) : downloadImage (r :: rest) = downloadImage rest := by
  simp [downloadImage, h]

theorem downloadImage_cons_ok {r : HttpResponse} {rest : List HttpResponse}
    (hr : isRedirect r = false) (h200 : r.statusCode = 200) :
    downloadImage (r :: rest) = .ok r.body := by
  simp [downloadImage, hr, h200]

theorem downloadImage_cons_err {r : HttpResponse} {rest : List HttpResponse}
    (hr : isRedirect r = false) (h200 : r.statusCode ≠ 200) :
    downloadImage (r :: rest) =
      .error ("Failed to download image: " ++ natDec r.statusCode) := by
  simp [downloadImage, hr, h200]

/-- C7 (amended): a download succeeds exactly when the response sequence
is a run of 301/302 responses carrying a Location header followed by a
status-200 response, whose body is the written result; any other terminal
response — including 2xx statuses other than 200 and redirects without a
Location — rejects. -/
theorem C7_downloadImage_ok_iff (rs : List HttpResponse) (b : String) :
    downloadImage rs = .ok b ↔
      ∃ pre r post, rs = pre ++ r :: post ∧ (∀ q ∈ pre, isRedirect q = true) ∧
        r.statusCode = 200 ∧ b = r.body := by
  induction rs with
  | nil =>
    simp only [downloadImage]
    constructor
    · intro h
      simp at h
    · rintro ⟨pre, r, post, hrs, -, -, -⟩
      cases pre <;> simp at hrs
  | cons r rest ih =>
    cases hr : isRedirect r with
    | true =>
      rw [downloadImage_cons_redirect hr, ih]
      constructor
      · rintro ⟨pre, r', post, hrs, hpre, h200, hb⟩
        refine ⟨r :: pre, r', post, by rw [hrs]; rfl, ?_, h200, hb⟩
        intro q hq
        rcases List.mem_cons.mp hq with h | h
        · rw [h]; exact hr
        · exact hpre q h
      · rintro ⟨pre, r', post, hrs, hpre, h200, hb⟩
        cases pre with
        | nil =>
          simp only [List.nil_append, List.cons.injEq] at hrs
          rw [hrs.1] at hr
          rw [show isRedirect r' = false by simp [isRedirect, h200]] at hr
          exact Bool.noConfusion hr
        | cons p pre' =>
          simp only [List.cons_append, List.cons.injEq] at hrs
          exact ⟨pre', r', post, hrs.2, fun q hq => hpre q (List.mem_cons_of_mem p hq),
            h200, hb⟩
    | false =>
      by_cases h200 : r.statusCode = 200
      · rw [downloadImage_cons_ok hr h200]
        constructor
        · intro h
          exact ⟨[], r, rest, rfl, by simp, h200, (Except.ok.inj h).symm⟩
        · rintro ⟨pre, r', post, hrs, hpre, h200', hb⟩
          cases pre with
          | nil =>
            simp only [List.nil_append, List.cons.injEq] at hrs
            rw [hb, hrs.1]
          | cons p pre' =>
            simp only [List.cons_append, List.cons.injEq] at hrs
            rw [hrs.1] at hr
            rw [hpre p (List.mem_cons_self p pre')] at hr
            exact Bool.noConfusion hr
      · rw [downloadImage_cons_err hr h200]
        constructor
        · intro h
          simp at h
        · rintro ⟨pre, r', post, hrs, hpre, h200', hb⟩
          cases pre with
          | nil =>
            simp only [List.nil_append, List.cons.injEq] at hrs
            rw [hrs.1] at h200
            exact absurd h200' h200
          | cons p pre' =>
            simp only [List.cons_append, List.cons.injEq] at hrs
            rw [hrs.1] at hr
            rw [hpre p (List.mem_cons_self p pre')] at hr
            exact Bool.noConfusion hr

/-- C7 witness: a 302-with-Location redirect followed by a 200 succeeds
with the final response's body. -/
theorem C7_downloadImage_ok_iff_witness :
    downloadImage [⟨302, some "u", ""⟩, ⟨200, none, "BODY"⟩] = .ok "BODY" :=
  (C7_downloadImage_ok_iff [⟨302, some "u", ""⟩, ⟨200, none, "BODY"⟩] "BODY").mpr
    ⟨[⟨302, some "u", ""⟩], ⟨200, none, "BODY"⟩, [], rfl, by decide, rfl, rfl⟩

/-- C8: for every invocation of generateEpub and generateMultiChapterEpub
— whichever of the structure and archive steps fails — the staging
directory is created and then removed before the call returns; the
removal is the last filesystem event of the trace, and an error from a
failed step still propagates to the caller after the cleanup. -/
theorem C8_staging_cleanup (htmlContent : String) (m : EpubMetadata)
    (images : List ImageReference) (fetchOk : ImageReference → Bool) (coverOk : Bool)
    (today : String) (chapters : List Chapter) (structureFault archiveFault : Bool) :
    tempDirExistsAfter
      (generateEpubRun htmlContent m images fetchOk coverOk today
        structureFault archiveFault).1 = false ∧
    (generateEpubRun htmlContent m images fetchOk coverOk today
        structureFault archiveFault).1.getLast? = some .removeTemp ∧
    (generateEpubRun htmlContent m images fetchOk coverOk today
        structureFault archiveFault).2.isOk = (!structureFault && !archiveFault) ∧
    tempDirExistsAfter
      (generateMultiChapterEpubRun chapters m images fetchOk coverOk today
        structureFault archiveFault).1 = false ∧
    (generateMultiChapterEpubRun chapters m images fetchOk coverOk today
        structureFault archiveFault).1.getLast? = some .removeTemp ∧
    (generateMultiChapterEpubRun chapters m images fetchOk coverOk today
        structureFault archiveFault).2.isOk = (!structureFault && !archiveFault) := by
  cases structureFault <;> cases archiveFault <;>
    simp [generateEpubRun, generateMultiChapterEpubRun, tempDirExistsAfter, Except.isOk,
      Except.toBool]

theorem parseMarkdownModel_ref (doc : DocInput) (st : PMState) :
    (parseMarkdownModel doc st).1.imagesRef = st.nextRef := rfl

theorem parseMarkdownModel_nextRef (doc : DocInput) (st : PMState) :
    (parseMarkdownModel doc st).2.nextRef = st.nextRef + 1 := by
  have h := foldl_renderer_fields doc.imageTags
    { nextRef := st.nextRef + 1, heap := heapSet st.heap st.nextRef [],
      parsedImagesRef := st.nextRef, currentBaseDir := doc.baseDir, uuidCtr := st.uuidCtr }
  simpa [parseMarkdownModel] using h.1

/-- Each call's returned array holds exactly the images computed from its
own input and uuid supply. -/
theorem parseMarkdownModel_own (doc : DocInput) (st : PMState) :
    heapGet (parseMarkdownModel doc st).2.heap (parseMarkdownModel doc st).1.imagesRef =
      expectedImagesFrom doc.baseDir st.uuidCtr doc.imageTags := by
  have h := foldl_renderer_heapGet_own doc.imageTags
    { nextRef := st.nextRef + 1, heap := heapSet st.heap st.nextRef [],
      parsedImagesRef := st.nextRef, currentBaseDir := doc.baseDir, uuidCtr := st.uuidCtr }
  simpa [parseMarkdownModel, heapGet_heapSet_same] using h

/-- A call leaves every array other than its own untouched. -/
theorem parseMarkdownModel_other (doc : DocInput) (st : PMState) (r : Nat)
    (hr : r ≠ st.nextRef) :
    heapGet (parseMarkdownModel doc st).2.heap r = heapGet st.heap r := by
  have h := foldl_renderer_heapGet_other doc.imageTags
    { nextRef := st.nextRef + 1, heap := heapSet st.heap st.nextRef [],
      parsedImagesRef := st.nextRef, currentBaseDir := doc.baseDir, uuidCtr := st.uuidCtr }
    r hr
  rw [heapGet_heapSet_other _ hr] at h
  simpa [parseMarkdownModel] using h

/-- C9: two sequential parseMarkdown calls cannot observe each other's
image lists: the module-level array is rebound to a fresh array at the
start of each call, so the second call's returned list holds exactly the
images of its own input (src, resolved path and content type computed
from that input alone), and the array the first call returned — together
with its html and title — is unchanged by the second call. -/
theorem C9_parseMarkdown_reentrant (d1 d2 : DocInput) (st0 : PMState) :
    heapGet (parseMarkdownModel d2 (parseMarkdownModel d1 st0).2).2.heap
        (parseMarkdownModel d2 (parseMarkdownModel d1 st0).2).1.imagesRef =
      expectedImagesFrom d2.baseDir (parseMarkdownModel d1 st0).2.uuidCtr d2.imageTags ∧
    (heapGet (parseMarkdownModel d2 (parseMarkdownModel d1 st0).2).2.heap
        (parseMarkdownModel d2 (parseMarkdownModel d1 st0).2).1.imagesRef).map
        (fun i => (i.src, i.resolvedPath, i.mediaType)) =
      d2.imageTags.map (fun h => (h, resolveHref d2.baseDir h, mimeLookup h)) ∧
    heapGet (parseMarkdownModel d2 (parseMarkdownModel d1 st0).2).2.heap
        (parseMarkdownModel d1 st0).1.imagesRef =
      heapGet (parseMarkdownModel d1 st0).2.heap (parseMarkdownModel d1 st0).1.imagesRef ∧
    (parseMarkdownModel d1 st0).1.html = markedWithFootnotes d1.text ∧
    (parseMarkdownModel d1 st0).1.title = extractTitle d1.text := by
  refine ⟨parseMarkdownModel_own d2 _, ?_, ?_, rfl, rfl⟩
  · rw [parseMarkdownModel_own, expectedImagesFrom_proj]
  · have hr : (parseMarkdownModel d1 st0).1.imagesRef ≠
        (parseMarkdownModel d1 st0).2.nextRef := by
      rw [parseMarkdownModel_ref, parseMarkdownModel_nextRef]
      omega
    exact parseMarkdownModel_other d2 _ _ hr

/-- C10 counterexample: the identifier is not the ONE metadata field
written without entity escaping — the language field (like the creation
date and the modification date) is also interpolated verbatim: a language
of `a&b` appears raw in content.opf, where escaping would have produced
`a&amp;b`. -/
theorem C10_language_also_unescaped :
    countSub ("xml:lang=\"a&b\"").data (getContentOpf mAmp [] "2024-01-01").data = 1 ∧
    escapeXml "a&b" = "a&amp;b" := by
  set_option maxRecDepth 8192 in decide

/-- C10 (amended): `metadata.identifier` is interpolated verbatim into
content.opf (the dc:identifier element) and toc.ncx (the dtb:uid meta),
while title, author, publisher, description and rights pass through
escapeXml — but the identifier is not the only unescaped field:
`metadata.language` and `metadata.createdDate` (and the modification
date) are interpolated verbatim as well. -/
theorem C10_identifier_verbatim (m : EpubMetadata) (images : List ImageReference)
    (today : String) :
    getContentOpf m images today = String.join (opfPieces m images today) ∧
    m.identifier ∈ opfPieces m images today ∧
    m.language ∈ opfPieces m images today ∧
    m.createdDate ∈ opfPieces m images today ∧
    today ∈ opfPieces m images today ∧
    escapeXml m.title ∈ opfPieces m images today ∧
    escapeXml m.author ∈ opfPieces m images today ∧
    publisherPiece m.publisher ∈ opfPieces m images today ∧
    descriptionPiece m.description ∈ opfPieces m images today ∧
    rightsPiece m.rights ∈ opfPieces m images today ∧
    getTocNcx m = String.join (ncxPieces m) ∧
    m.identifier ∈ ncxPieces m ∧
    escapeXml m.title ∈ ncxPieces m := by
  refine ⟨rfl, ?_, ?_, ?_, ?_, ?_, ?_, ?_, ?_, ?_, rfl, ?_, ?_⟩ <;>
    simp [opfPieces, opfMetadataPieces, ncxPieces]

end MdToEpub
